import Mathlib

/-!
# Shallow embedding of the SmartCash validation core (src/src/validation.cpp)

This file embeds, in Lean 4, the parts of `validation.cpp` (together with the
constants of `src/src/consensus/consensus.h`) that the verified claims refer
to: the reward schedule (`GetBlockValue`), sigop accounting
(`GetLegacySigOpCount` / `GetP2SHSigOpCount` and the block-level limits),
BIP68 sequence locks (`CalculateSequenceLocks` / `EvaluateSequenceLocks`),
the UTXO-view manipulation of `ConnectBlock` / `DisconnectBlock` /
`UpdateCoins` / `ApplyTxInUndo`, the BIP30 duplicate-coinbase rule,
the contextual header checks, header/block re-acceptance, the mempool
input-resolution step, and the mempool replace-by-fee policy segment of
`AcceptToMemoryPoolWorker`.

Hashes (`uint256`) are modelled as naturals; a transaction carries its hash
(`txid`) as data, and theorems that need it assume the hashes of distinct
transactions are distinct.  Machine integers are modelled as `Int`/`Nat`
(the quantities involved stay far from the 64-bit overflow boundary on every
code path considered).  Types whose C++ definitions are not part of this
repository snapshot (scripts, `Coin`/coins-view primitives from `coins.cpp`,
the mempool container, a handful of constants) are modelled from the
specification and are marked `Modelled from the spec:` in their doc comments.
-/

namespace SmartCash

/-! ## Consensus constants (src/src/consensus/consensus.h) -/

/-- `MAX_BLOCK_SIGOPS_COST = 160000` (consensus.h). -/
def MAX_BLOCK_SIGOPS_COST : Nat := 160000

/-- `maxBlockSize = 1000000` (consensus.h, initial/network-rule value). -/
def maxBlockSizeDefault : Nat := 1000000

/-- `maxBlockSigops = maxBlockSize/50` (consensus.h, initial value `20000`). -/
def maxBlockSigopsDefault : Nat := maxBlockSizeDefault / 50

/-- `HF_CHAIN_REWARD_END_HEIGHT = 717499999` (consensus.h). -/
def HF_CHAIN_REWARD_END_HEIGHT : Int := 717499999

/-- `LOCKTIME_VERIFY_SEQUENCE = (1 << 0)` (consensus.h). -/
def LOCKTIME_VERIFY_SEQUENCE : Nat := 1

/-- Modelled from the spec: `WITNESS_SCALE_FACTOR` is not defined in this
repository snapshot (its header is absent); the spec fixes the block-sigop
limit as "160 000 (weighted)" with the standard weighting factor 4 applied to
legacy sigop counts in `CheckBlock`. -/
def WITNESS_SCALE_FACTOR : Nat := 4

/-- Modelled from the spec: "max future block time: 2 hours"
(`MAX_FUTURE_BLOCK_TIME`; its defining header is not in the snapshot). -/
def MAX_FUTURE_BLOCK_TIME : Int := 2 * 60 * 60

/-- Modelled from the spec: one coin in base units (`COIN` from `amount.h`,
absent from the snapshot; the standard 10^8 base units per coin). -/
def COIN : Int := 100000000

/-! ## Reward schedule: GetBlockValue (validation.cpp:1066) and the taper

`GetBlockValue` computes the taper branch as
`floor(0.5 + ((double)(5000 * 143500) / (nHeight + 1))) * COIN + nFees`.
With `N = 5000 * 143500 = 717500000` and `d = nHeight + 1 > 0`,
the exact value `floor(0.5 + N/d)` equals `(2*N + d) / (2*d)` in integer
division.  (The IEEE double computation is exact here: `N/d ≤ 7.2·10^8 < 2^30`
carries an ulp of at most `2^-22·N/d`, while the distance from `N/d` to the
nearest half-integer, when nonzero, is at least `1/(2d) ≥ 1/(2N)`, which is
larger by a factor of about `2^51/N`; half-integer values themselves are
exactly representable and `floor(0.5 + ·)` rounds them up, matching the
integer formula.) -/

/-- The taper value in whole coins: `floor(0.5 + 717500000/(h+1))` for
`h ≥ 0`, computed with exact integer arithmetic. -/
def taperCoins (h : Int) : Int := (2 * 717500000 + (h + 1)) / (2 * (h + 1))

/-- `GetBlockValue(nHeight, nFees, nTime)` (validation.cpp:1066-1083),
translated with the source's sequence of overwriting assignments to `value`.
`mainNet` models the `MainNet()` predicate and `startRewardTime` the global
`nStartRewardTime` (both defined outside the snapshot, passed as inputs). -/
def GetBlockValue (nHeight nFees nTime : Int) (mainNet : Bool)
    (startRewardTime : Int) : Int :=
  let value : Int := 0 * COIN
  let value := if (nTime < startRewardTime && mainNet) || nHeight == 0
    then 0 * COIN else value
  let value := if nHeight > 0 && nHeight ≤ 143499
    then 5000 * COIN + nFees else value
  let value := if nHeight > 143499 && nHeight ≤ HF_CHAIN_REWARD_END_HEIGHT
    then taperCoins nHeight * COIN + nFees else value
  let value := if nHeight > HF_CHAIN_REWARD_END_HEIGHT then nFees else value
  value

/-- The reward schedule exactly as the specification words it: `0` at height
`0`; a flat `5000` coins up to the cutoff `143499`; the taper
`floor(0.5 + 5000·143500/(h+1))` up to the terminal height; zero beyond.
This is the spec-side definition used to compare `GetBlockValue` against the
claimed schedule. -/
def subsidyCoinsSpec (h : Int) : Int :=
  if h = 0 then 0
  else if h ≤ 143499 then 5000
  else if h ≤ HF_CHAIN_REWARD_END_HEIGHT then taperCoins h
  else 0

/-! ## Transactions, scripts, coins -/

/-- `COutPoint`: a (transaction hash, output index) pair; hashes are
modelled as naturals. -/
structure OutPoint where
  txid : Nat
  n : Nat
deriving DecidableEq, Repr

/-- The null outpoint (`COutPoint()` has a zero hash and `n = -1`,
i.e. `0xffffffff` as `uint32_t`). -/
def OutPoint.isNull (o : OutPoint) : Bool :=
  o.txid == 0 && o.n == 4294967295

/-- Modelled from the spec: script primitives are explicitly out of scope
("we treat the script verifier as an opaque predicate"), and `script.h` is
not in the snapshot.  A script is opaque data carrying exactly the attributes
`validation.cpp` queries of it: its legacy sigop count
(`GetSigOpCount(false)`), its sigop count when interpreted as the redeem
script carried by a P2SH input (`scriptPubKey.GetSigOpCount(scriptSig)`,
which depends only on the spending `scriptSig`), and the Boolean
classifications `IsUnspendable`, `IsPayToScriptHash` and `IsZerocoinSpend`. -/
structure Script where
  sigOpCount : Nat
  p2shSigOpCount : Nat
  unspendable : Bool
  isP2SH : Bool
  isZerocoinSpend : Bool
deriving DecidableEq, Repr

/-- `CTxIn`: previous outpoint, signature script, sequence number
(`nSequence` is a `uint32_t`, modelled as `Nat`). -/
structure TxIn where
  prevout : OutPoint
  scriptSig : Script
  nSequence : Nat
deriving DecidableEq, Repr

/-- `CTxOut`: value and locking script. -/
structure TxOut where
  nValue : Int
  scriptPubKey : Script
deriving DecidableEq, Repr

/-- `CTransaction`.  `txid` models the cached `GetHash()` value; theorems
that need it assume distinct transactions have distinct hashes. -/
structure Transaction where
  nVersion : Int
  txid : Nat
  vin : List TxIn
  vout : List TxOut
deriving DecidableEq, Repr

/-- `CTransaction::IsCoinBase()`: a single input with a null prevout. -/
def Transaction.isCoinBase (tx : Transaction) : Bool :=
  match tx.vin with
  | [i] => i.prevout.isNull
  | _ => false

/-- `CTransaction::IsZerocoinSpend()`: some input's signature script is a
zerocoin spend (the script-level predicate is opaque, see `Script`). -/
def Transaction.isZerocoinSpend (tx : Transaction) : Bool :=
  tx.vin.any (fun i => i.scriptSig.isZerocoinSpend)

/-- Modelled from the spec: a `Coin` is "an unspent output: `amount`,
`script`, `height`, `is_coinbase`" (`coins.h` is not in the snapshot). -/
structure Coin where
  out : TxOut
  fCoinBase : Bool
  nHeight : Nat
deriving DecidableEq, Repr

/-! ## Sigop counting (validation.cpp:1014-1044) -/

/-- `GetLegacySigOpCount(tx)` (validation.cpp:1014): the sum of the legacy
sigop counts of all input signature scripts and all output scripts. -/
def GetLegacySigOpCount (tx : Transaction) : Nat :=
  (tx.vin.map (fun i => i.scriptSig.sigOpCount)).sum +
    (tx.vout.map (fun o => o.scriptPubKey.sigOpCount)).sum

/-! ## Sequence locks (validation.cpp:849-925) -/

/-- Modelled from the spec: "sequence-lock disable bit: bit 31"
(`CTxIn::SEQUENCE_LOCKTIME_DISABLE_FLAG`; `transaction.h` absent). -/
def SEQUENCE_LOCKTIME_DISABLE_FLAG : Nat := 2 ^ 31

/-- Modelled from the spec: "type-flag bit: bit 22"
(`CTxIn::SEQUENCE_LOCKTIME_TYPE_FLAG`). -/
def SEQUENCE_LOCKTIME_TYPE_FLAG : Nat := 2 ^ 22

/-- Modelled from the spec: "value mask: low 16 bits"
(`CTxIn::SEQUENCE_LOCKTIME_MASK`). -/
def SEQUENCE_LOCKTIME_MASK : Nat := 0xffff

/-- Modelled from the spec: "relative-lock sequence granularity: 9"
(`CTxIn::SEQUENCE_LOCKTIME_GRANULARITY`). -/
def SEQUENCE_LOCKTIME_GRANULARITY : Nat := 9

/-- The `static_cast<uint32_t>(tx.nVersion)` of the source, on `Int`. -/
def castU32 (v : Int) : Int := v.emod (2 ^ 32)

/-- One step of the loop of `CalculateSequenceLocks` (validation.cpp:873-907):
given the accumulated `(nMinHeight, nMinTime)` pair, an input together with
the height of the coin it spends, and the function `coinTimeAt` giving
`block.GetAncestor(max(h-1,0))->GetMedianTimePast()` (chain data outside the
view), produce the updated pair. -/
def sequenceLockStep (coinTimeAt : Int → Int) (acc : Int × Int)
    (inp : TxIn × Int) : Int × Int :=
  let (nMinHeight, nMinTime) := acc
  let (txin, nCoinHeight) := inp
  if txin.nSequence &&& SEQUENCE_LOCKTIME_DISABLE_FLAG ≠ 0 then
    (nMinHeight, nMinTime)
  else if txin.nSequence &&& SEQUENCE_LOCKTIME_TYPE_FLAG ≠ 0 then
    let nCoinTime := coinTimeAt (max (nCoinHeight - 1) 0)
    (nMinHeight,
      max nMinTime (nCoinTime +
        ((txin.nSequence &&& SEQUENCE_LOCKTIME_MASK) <<<
          SEQUENCE_LOCKTIME_GRANULARITY : Nat) - 1))
  else
    (max nMinHeight (nCoinHeight +
      ((txin.nSequence &&& SEQUENCE_LOCKTIME_MASK : Nat) : Int) - 1),
      nMinTime)

/-- `CalculateSequenceLocks(tx, flags, prevHeights, block)`
(validation.cpp:849-909).  `prevHeights` pairs each input with the height of
the coin it spends; the zeroing of `prevHeights` entries for disabled inputs
only affects the caller's vector, not the returned pair, and is omitted. -/
def CalculateSequenceLocks (tx : Transaction) (flags : Nat)
    (prevHeights : List Int) (coinTimeAt : Int → Int) : Int × Int :=
  let fEnforceBIP68 := 2 ≤ castU32 tx.nVersion ∧
    flags &&& LOCKTIME_VERIFY_SEQUENCE ≠ 0
  if ¬fEnforceBIP68 then (-1, -1)
  else (tx.vin.zip prevHeights).foldl (sequenceLockStep coinTimeAt) (-1, -1)

/-- `EvaluateSequenceLocks(block, lockPair)` (validation.cpp:911-919):
`block.nHeight` is the height of the block being evaluated and
`prevMTP` is `block.pprev->GetMedianTimePast()`. -/
def EvaluateSequenceLocks (blockHeight : Int) (prevMTP : Int)
    (lockPair : Int × Int) : Bool :=
  ¬(lockPair.1 ≥ blockHeight || lockPair.2 ≥ prevMTP)

/-- `SequenceLocks(tx, flags, prevHeights, block)` (validation.cpp:921-924). -/
def SequenceLocks (tx : Transaction) (flags : Nat) (prevHeights : List Int)
    (coinTimeAt : Int → Int) (blockHeight prevMTP : Int) : Bool :=
  EvaluateSequenceLocks blockHeight prevMTP
    (CalculateSequenceLocks tx flags prevHeights coinTimeAt)

/-! ## The UTXO view

`coins.cpp`/`coins.h` are not part of the snapshot; the primitive view
operations below are modelled from the spec, §4.3 ("UtxoCache"): a map
`Outpoint → Coin` with `add_coin(out, coin, possible_overwrite)` failing on
overwriting a known unspent slot unless `possible_overwrite`,
`spend_coin(out)` removing and returning the coin, and point lookup.  In the
per-output store a spent coin is absent from the map ("miss-as-spent"), and
`AddCoin` ignores coins whose script is unspendable (the convention
`DisconnectBlock` relies on when it skips unspendable outputs).  The
best-block pointer is carried beside the map and updated only by
`ConnectBlock`/`DisconnectBlock`. -/

/-- The coin map of a UTXO view. -/
abbrev CoinsMap := OutPoint → Option Coin

/-- Point lookup with overwrite. -/
def CoinsMap.setCoin (m : CoinsMap) (o : OutPoint) (c : Coin) : CoinsMap :=
  fun o' => if o' = o then some c else m o'

/-- Removal. -/
def CoinsMap.delCoin (m : CoinsMap) (o : OutPoint) : CoinsMap :=
  fun o' => if o' = o then none else m o'

/-- `HaveCoin`: the outpoint holds an unspent coin. -/
def CoinsMap.haveCoin (m : CoinsMap) (o : OutPoint) : Bool := (m o).isSome

/-- `SpendCoin(out, &coin)`: return the coin (if any) and remove it. -/
def CoinsMap.spendCoin (m : CoinsMap) (o : OutPoint) :
    Option Coin × CoinsMap := (m o, m.delCoin o)

/-- `AddCoin(out, coin, possible_overwrite)`: unspendable coins are ignored;
overwriting a present coin without `possible_overwrite` is the
`std::logic_error` path, modelled as `none`. -/
def CoinsMap.addCoin (m : CoinsMap) (o : OutPoint) (c : Coin)
    (possibleOverwrite : Bool) : Option CoinsMap :=
  if c.out.scriptPubKey.unspendable then some m
  else if (m o).isSome && !possibleOverwrite then none
  else some (m.setCoin o c)

/-- `CCoinsViewCache::HaveInputs(tx)`: every input's prevout holds an
unspent coin (trivially true for a coinbase). -/
def CoinsMap.haveInputs (m : CoinsMap) (tx : Transaction) : Bool :=
  tx.isCoinBase || tx.vin.all (fun i => m.haveCoin i.prevout)

/-- The UTXO view: coin map plus the best-block pointer. -/
structure CoinsView where
  coins : CoinsMap
  bestBlock : Nat

/-- Modelled from the spec: `MAX_OUTPUTS_PER_BLOCK` bounds the output index
scan of `AccessByTxid` (`coins.cpp` absent); it is the maximal block size
divided by the serialized size of a minimal output. -/
def MAX_OUTPUTS_PER_BLOCK : Nat := maxBlockSizeDefault / 9

/-- `AccessByTxid(view, txid)`: the first still-unspent output of `txid`,
scanning output indices from `0`. -/
def accessByTxid (m : CoinsMap) (txid : Nat) : Option Coin :=
  (List.range MAX_OUTPUTS_PER_BLOCK).findSome? (fun n => m ⟨txid, n⟩)

/-- `GetP2SHSigOpCount(tx, inputs)` (validation.cpp:1030-1044): P2SH sigops
contributed by the redeem scripts of inputs whose prevout script is P2SH.
The source asserts `!coin.IsSpent()`; at its call site in `ConnectBlock` the
`HaveInputs` check has already passed, so the missing-coin branch (summand
`0` here) is unreachable there. -/
def GetP2SHSigOpCount (tx : Transaction) (m : CoinsMap) : Nat :=
  if tx.isCoinBase || tx.isZerocoinSpend then 0
  else (tx.vin.map (fun i =>
    match m i.prevout with
    | some c => if c.out.scriptPubKey.isP2SH then i.scriptSig.p2shSigOpCount
                else 0
    | none => 0)).sum

/-! ## Blocks and the contextless block check (CheckBlock, validation.cpp:3893) -/

/-- A block: its cached `GetHash()` and its transactions.  Header fields
enter the embedding only through the opaque checks and the connect
environment. -/
structure Block where
  hash : Nat
  vtx : List Transaction
deriving DecidableEq, Repr

/-- Rejection reasons of the embedded checks (the `REJECT_INVALID` codes of
the source). -/
inductive BlockErr
  | otherCheckFailed
  | badBlkLength
  | badCbMissing
  | badCbMultiple
  | badTxnsVinEmpty
  | badTxnsVoutEmpty
  | badTxnsPrevoutNull
  | badTxnsInputsDuplicate
  | badBlkSigops
  | badTxnsBIP30
  | badTxnsInputsMissingOrSpent
  | txContextFailed
  | assertFailed
deriving DecidableEq, Repr

/-- The structural per-transaction checks of `CheckTransaction`
(validation.cpp:1086-1133) expressible over the modelled data: non-empty
inputs and outputs, no duplicate inputs, and the null-prevout rule for
non-coinbase inputs.  The value-range, serialized-size, coinbase
script-length and zerocoin checks involve unmodelled script/serialization
data and are covered by the opaque `otherChecksOk` flag of
`checkBlockCore`. -/
def checkTransactionBasic (tx : Transaction) : Option BlockErr :=
  if tx.vin = [] then some .badTxnsVinEmpty
  else if tx.vout = [] then some .badTxnsVoutEmpty
  else if ¬(tx.vin.map (·.prevout)).Nodup then some .badTxnsInputsDuplicate
  else if ¬tx.isCoinBase ∧ tx.vin.any
      (fun i => i.prevout.isNull && !i.scriptSig.isZerocoinSpend) then
    some .badTxnsPrevoutNull
  else none

/-- `CheckBlock` (validation.cpp:3893-3993), restricted to the checks over
the modelled data: the proof-of-work, merkle-root, serialized-size and
instant-send checks, and the unmodelled parts of `CheckTransaction`, are
collected in the opaque flag `otherChecksOk` (they precede the sigop check
in the source); then non-emptiness, the coinbase-position rules, the
modelled `CheckTransaction` checks, and finally the weighted legacy sigop
limit `nSigOps * WITNESS_SCALE_FACTOR > MAX_BLOCK_SIGOPS_COST`
(validation.cpp:3980-3986). -/
def checkBlockCore (b : Block) (otherChecksOk : Bool) : Option BlockErr :=
  if ¬otherChecksOk then some .otherCheckFailed
  else match b.vtx with
  | [] => some .badBlkLength
  | cb :: rest =>
    if ¬cb.isCoinBase then some .badCbMissing
    else if rest.any (·.isCoinBase) then some .badCbMultiple
    else match b.vtx.findSome? checkTransactionBasic with
    | some e => some e
    | none =>
      if (b.vtx.map GetLegacySigOpCount).sum * WITNESS_SCALE_FACTOR >
          MAX_BLOCK_SIGOPS_COST then some .badBlkSigops
      else none

/-! ## BIP30 enforcement (validation.cpp:2614-2637) -/

/-- First whitelisted duplicate-coinbase block hash (height 91842). -/
def bip30WhitelistHash1 : Nat :=
  0x00000000000a4d0a398161ffc163c503763b1f4360639393e0e4c8e300e0caec

/-- Second whitelisted duplicate-coinbase block hash (height 91880). -/
def bip30WhitelistHash2 : Nat :=
  0x00000000000743f190a18c5577a3c2d2a1f610ae9601ac046a38084ccb7cd721

/-- Modelled from the spec: the source additionally skips BIP30 when the
block at the BIP34 activation height of the chain parameters carries the
parametrised `BIP34Hash` (validation.cpp:2624-2627).  The chain parameters
are not in the snapshot; per the spec the BIP30 exceptions are exactly the
two whitelisted `(height, hash)` pairs, so this shortcut never fires. -/
def bip34ShortcutActive : Bool := false

/-- `fEnforceBIP30` (validation.cpp:2616-2627) for a block with a known
hash (the `!pindex->phashBlock` disjunct only concerns `CreateNewBlock`
invocations, which carry no hash). -/
def fEnforceBIP30 (nHeight : Nat) (blockHash : Nat) : Bool :=
  (!((nHeight == 91842 && blockHash == bip30WhitelistHash1) ||
     (nHeight == 91880 && blockHash == bip30WhitelistHash2))) &&
  !bip34ShortcutActive

/-- The BIP30 scan of `ConnectBlock` (validation.cpp:2629-2637): some
transaction has an output outpoint already unspent in the view. -/
def bip30Violation (b : Block) (m : CoinsMap) : Bool :=
  b.vtx.any (fun tx =>
    (List.range tx.vout.length).any (fun o => m.haveCoin ⟨tx.txid, o⟩))

/-! ## UpdateCoins (validation.cpp:2032-2051) -/

/-- The input-spending loop of `UpdateCoins`: spend each input's prevout in
order, recording the spent coins (the `CTxUndo.vprevout` entries); a failed
spend is the source's `assert(is_spent)`. -/
def spendInputsAux : List TxIn → CoinsMap → Option (CoinsMap × List Coin)
  | [], m => some (m, [])
  | txin :: rest, m =>
    match m.spendCoin txin.prevout with
    | (none, _) => none
    | (some c, m') =>
      match spendInputsAux rest m' with
      | none => none
      | some (m'', cs) => some (m'', c :: cs)

/-- The output-adding loop of `AddCoins` (`coins.cpp`, modelled from the
spec): add each output as a coin at the block height, with
`possible_overwrite` set exactly for coinbase outputs. -/
def addOutputsAux (txid : Nat) (fCoinbase : Bool) (nHeight : Nat) :
    List TxOut → Nat → CoinsMap → Option CoinsMap
  | [], _, m => some m
  | out :: rest, k, m =>
    match m.addCoin ⟨txid, k⟩ ⟨out, fCoinbase, nHeight⟩ fCoinbase with
    | none => none
    | some m' => addOutputsAux txid fCoinbase nHeight rest (k + 1) m'

/-- `AddCoins(cache, tx, nHeight)`. -/
def AddCoins (tx : Transaction) (nHeight : Nat) (m : CoinsMap) :
    Option CoinsMap :=
  addOutputsAux tx.txid tx.isCoinBase nHeight tx.vout 0 m

/-- `UpdateCoins(tx, state, inputs, txundo, nHeight)`
(validation.cpp:2032-2045): spend the inputs of non-coinbase,
non-zerocoin-spend transactions into the undo record, then add the outputs.
Returns the updated map and the undo record. -/
def UpdateCoins (tx : Transaction) (nHeight : Nat) (m : CoinsMap) :
    Option (CoinsMap × List Coin) :=
  if ¬tx.isCoinBase ∧ ¬tx.isZerocoinSpend then
    match spendInputsAux tx.vin m with
    | none => none
    | some (m', undo) =>
      match AddCoins tx nHeight m' with
      | none => none
      | some m'' => some (m'', undo)
  else
    match AddCoins tx nHeight m with
    | none => none
    | some m'' => some (m'', [])

/-! ## ConnectBlock (validation.cpp:2550-2901)

The embedding covers the evolution of the UTXO view, the undo journal, the
sigop accounting and the rejection structure.  Omitted, with their place in
the control flow represented by opaque flags: the assume-valid machinery and
script-check scheduling (pure reads), the address/spent/timestamp index
side-tables (they write external indexes, never the view), fee accounting,
bench logging, and the on-disk writes of the `!fJustCheck` epilogue.  The
`fJustCheck = false` path is modelled (the best-block pointer is swung). -/

/-- The ambient data `ConnectBlock` reads besides the block and the view. -/
structure ConnectEnv where
  /-- `pindex->nHeight`. -/
  nHeight : Nat
  /-- `pindex->pprev` hash (`uint256()`, i.e. `0`, for a null parent). -/
  parentHash : Nat
  /-- `chainparams.GetConsensus().hashGenesisBlock`. -/
  genesisHash : Nat
  /-- `fStrictPayToScriptHash`: `pindex->GetBlockTime() >= 1333238400`. -/
  strictPayToScriptHash : Bool
  /-- The global `maxBlockSigops` (possibly recomputed by the adaptive
  block-size rule just before the transaction loop). -/
  maxBlockSigops : Nat
  /-- Opaque parts of `CheckBlock` (see `checkBlockCore`). -/
  otherChecksOk : Bool
  /-- `SequenceLocks` outcome for the i-th transaction (BIP68; depends on
  chain context outside the view). -/
  seqLockOk : Nat → Bool
  /-- `CheckInputs` outcome for the i-th transaction (opaque script
  verification). -/
  scriptCheckOk : Nat → Bool
  /-- `SmartMining::Validate` (external payment-validation hook). -/
  miningOk : Bool

/-- One iteration of the transaction loop of `ConnectBlock`
(validation.cpp:2695-2820) for the `i`-th transaction: accumulate legacy
sigops and enforce the `maxBlockSigops` limit; for ordinary transactions
check input availability and sequence locks, accumulate P2SH sigops under
BIP16 and re-enforce the limit, run script checks, and update the view. -/
def connectTx (env : ConnectEnv) (m : CoinsMap) (sigOps : Nat) (i : Nat)
    (tx : Transaction) : Except BlockErr (CoinsMap × List Coin × Nat) :=
  let sigOps1 := sigOps + GetLegacySigOpCount tx
  if sigOps1 > env.maxBlockSigops then .error .badBlkSigops
  else if ¬tx.isCoinBase ∧ ¬tx.isZerocoinSpend then
    if ¬m.haveInputs tx then .error .badTxnsInputsMissingOrSpent
    else if ¬env.seqLockOk i then .error .txContextFailed
    else
      let sigOps2 := if env.strictPayToScriptHash
        then sigOps1 + GetP2SHSigOpCount tx m else sigOps1
      if env.strictPayToScriptHash ∧ sigOps2 > env.maxBlockSigops then
        .error .badBlkSigops
      else if ¬env.scriptCheckOk i then .error .txContextFailed
      else match UpdateCoins tx env.nHeight m with
        | none => .error .assertFailed
        | some (m', undo) => .ok (m', undo, sigOps2)
  else match UpdateCoins tx env.nHeight m with
    | none => .error .assertFailed
    | some (m', undo) => .ok (m', undo, sigOps1)

/-- The transaction loop over the non-coinbase tail, collecting the
`vtxundo` entries in order. -/
def connectTxs (env : ConnectEnv) :
    List Transaction → Nat → CoinsMap → Nat →
    Except BlockErr (CoinsMap × List (List Coin) × Nat)
  | [], _, m, s => .ok (m, [], s)
  | tx :: rest, i, m, s =>
    match connectTx env m s i tx with
    | .error e => .error e
    | .ok (m', u, s') =>
      match connectTxs env rest (i + 1) m' s' with
      | .error e => .error e
      | .ok (m'', us, s'') => .ok (m'', u :: us, s'')

/-- `ConnectBlock(block, state, pindex, view)` (validation.cpp:2550-2901),
`fJustCheck = false`: re-run `CheckBlock`; assert the view is at the parent;
special-case the genesis block; enforce BIP30 unless whitelisted; run the
transaction loop; run the external payment hook; swing the best-block
pointer.  Returns the updated view and the block's undo journal. -/
def connectCore (env : ConnectEnv) (b : Block) (v : CoinsView) :
    Except BlockErr (CoinsView × List (List Coin)) :=
  match checkBlockCore b env.otherChecksOk with
  | some e => .error e
  | none =>
  if env.parentHash ≠ v.bestBlock then .error .assertFailed
  else if b.hash = env.genesisHash then
    .ok ({ v with bestBlock := b.hash }, [])
  else if fEnforceBIP30 env.nHeight b.hash && bip30Violation b v.coins then
    .error .badTxnsBIP30
  else match b.vtx with
  | [] => .error .badBlkLength
  | cb :: rest =>
    match connectTx env v.coins 0 0 cb with
    | .error e => .error e
    | .ok (m1, _, s1) =>
      match connectTxs env rest 1 m1 s1 with
      | .error e => .error e
      | .ok (m2, undos, _) =>
        if ¬env.miningOk then .error .txContextFailed
        else .ok (⟨m2, b.hash⟩, undos)

/-! ## DisconnectBlock (validation.cpp:2296-2441) -/

/-- `ApplyTxInUndo(undo, view, out)` (validation.cpp:2271-2292): note
whether the slot was unexpectedly occupied; reconstruct missing metadata
(`nHeight == 0`) from another unspent output of the same transaction,
failing if none exists; re-add the coin (`possible_overwrite` is the coin's
coinbase flag; the `AddCoin` overwrite error is the `std::logic_error`
path, modelled as failure).  `some true` is `DISCONNECT_OK`, `some false`
`DISCONNECT_UNCLEAN`, `none` `DISCONNECT_FAILED`. -/
def ApplyTxInUndo (undo : Coin) (m : CoinsMap) (out : OutPoint) :
    Option (Bool × CoinsMap) :=
  let fClean := !m.haveCoin out
  let undo? :=
    if undo.nHeight = 0 then
      match accessByTxid m out.txid with
      | some alt =>
        some { undo with nHeight := alt.nHeight, fCoinBase := alt.fCoinBase }
      | none => none
    else some undo
  match undo? with
  | none => none
  | some u =>
    match m.addCoin out u u.fCoinBase with
    | none => none
    | some m' => some (fClean, m')

/-- The output scan of the disconnect loop (validation.cpp:2360-2372):
spend each non-unspendable output of the transaction, recording a clean
flag that holds only if the coin was present and matches the block's
output, the block height and the coinbase flag. -/
def disconnectOutputs (tx : Transaction) (blockHeight : Nat) :
    List TxOut → Nat → CoinsMap → Bool × CoinsMap
  | [], _, m => (true, m)
  | out :: rest, o, m =>
    if out.scriptPubKey.unspendable then
      disconnectOutputs tx blockHeight rest (o + 1) m
    else
      let (spent, m') := m.spendCoin ⟨tx.txid, o⟩
      let ok := match spent with
        | none => false
        | some coin => out == coin.out && blockHeight == coin.nHeight &&
            tx.isCoinBase == coin.fCoinBase
      let (c2, m'') := disconnectOutputs tx blockHeight rest (o + 1) m'
      (ok && c2, m'')

/-- The input restoration of the disconnect loop (validation.cpp:2375-2390),
in decreasing input order: the head of the list is restored last. -/
def restoreInputs : List (TxIn × Coin) → CoinsMap → Option (Bool × CoinsMap)
  | [], m => some (true, m)
  | (txin, u) :: rest, m =>
    match restoreInputs rest m with
    | none => none
    | some (c1, m1) =>
      match ApplyTxInUndo u m1 txin.prevout with
      | none => none
      | some (c2, m2) => some (c1 && c2, m2)

/-- One transaction of the disconnect loop at position `iPos`: spend its
outputs, then (for `iPos > 0`) check the undo record length against the
inputs and restore them in reverse order. -/
def disconnectTx (blockHeight iPos : Nat) (tx : Transaction)
    (undo : List Coin) (m : CoinsMap) : Option (Bool × CoinsMap) :=
  let (c1, m1) := disconnectOutputs tx blockHeight tx.vout 0 m
  if iPos > 0 then
    if undo.length ≠ tx.vin.length then none
    else match restoreInputs (tx.vin.zip undo) m1 with
    | none => none
    | some (c2, m2) => some (c1 && c2, m2)
  else some (c1, m1)

/-- The disconnect loop over the non-coinbase tail (transactions paired
with their undo records, positions starting at `1`), in decreasing
position order: the head of the list is disconnected last. -/
def disconnectTxs (blockHeight : Nat) :
    List (Transaction × List Coin) → Nat → CoinsMap →
    Option (Bool × CoinsMap)
  | [], _, m => some (true, m)
  | (tx, u) :: rest, i, m =>
    match disconnectTxs blockHeight rest (i + 1) m with
    | none => none
    | some (c1, m1) =>
      match disconnectTx blockHeight i tx u m1 with
      | none => none
      | some (c2, m2) => some (c1 && c2, m2)

/-- `DisconnectBlock(block, state, pindex, view)`
(validation.cpp:2296-2441): assert the view is at the block; check the undo
record count against the transaction count; disconnect the transactions in
reverse order (the coinbase, restoring nothing, last); move the best-block
pointer to the parent.  The undo journal is passed in place of the on-disk
read; the address-index erasures write external indexes, never the view,
and are omitted.  `some true` is `DISCONNECT_OK` (the clean result),
`some false` `DISCONNECT_UNCLEAN`, `none` `DISCONNECT_FAILED`. -/
def disconnectCore (b : Block) (blockHeight : Nat) (parentHash : Nat)
    (undos : List (List Coin)) (v : CoinsView) : Option (Bool × CoinsView) :=
  if b.hash ≠ v.bestBlock then none
  else if undos.length + 1 ≠ b.vtx.length then none
  else match b.vtx with
  | [] => none
  | cb :: rest =>
    match disconnectTxs blockHeight (rest.zip undos) 1 v.coins with
    | none => none
    | some (c1, m1) =>
      match disconnectTx blockHeight 0 cb [] m1 with
      | none => none
      | some (c2, m2) => some (c1 && c2, ⟨m2, parentHash⟩)

/-! ## ContextualCheckBlockHeader (validation.cpp:4066-4089) -/

/-- Outcomes of the contextual header check, in rejection order. -/
inductive HeaderErr
  | badDiffbits
  | timeTooOld
  | timeTooNew
  | badVersion
deriving DecidableEq, Repr

/-- `ContextualCheckBlockHeader(block, state, pindexPrev)`
(validation.cpp:4066-4089).  `requiredBits` models
`GetNextWorkRequired(pindexPrev, &block, consensusParams)`, `mtpPrev`
`pindexPrev->GetMedianTimePast()`, `adjustedTime` `GetAdjustedTime()`, and
`superMajority ver` the `IsSuperMajority(ver, pindexPrev,
nMajorityRejectBlockOutdated, ...)` version-gate predicate (all chain or
clock context outside the header). -/
def ContextualCheckBlockHeader (blockTime : Int) (nBits requiredBits : Nat)
    (nVersion : Int) (mtpPrev adjustedTime : Int)
    (superMajority : Int → Bool) : Option HeaderErr :=
  if nBits ≠ requiredBits then some .badDiffbits
  else if blockTime ≤ mtpPrev then some .timeTooOld
  else if blockTime > adjustedTime + MAX_FUTURE_BLOCK_TIME then
    some .timeTooNew
  else if ([2, 3, 4] : List Int).any
      (fun ver => nVersion < ver && superMajority ver) then
    some .badVersion
  else none

/-! ## AcceptBlockHeader / AcceptBlock (validation.cpp:4175-4300) -/

/-- Modelled from the spec: the `BlockStatus` bits of `chain.h` (absent from
the snapshot); the spec lists the flags `HAVE_DATA`, `HAVE_UNDO`,
`FAILED_VALID`, `FAILED_CHILD` beside the monotone validity level, laid out
as in the upstream enum. -/
def BLOCK_VALID_TREE : Nat := 2

/-- Data availability: "full block available". -/
def BLOCK_HAVE_DATA : Nat := 8

/-- The entry itself failed validation. -/
def BLOCK_FAILED_VALID : Nat := 32

/-- An ancestor of the entry failed validation. -/
def BLOCK_FAILED_CHILD : Nat := 64

/-- `BLOCK_FAILED_MASK`. -/
def BLOCK_FAILED_MASK : Nat := BLOCK_FAILED_VALID ||| BLOCK_FAILED_CHILD

/-- An in-memory block-index entry, reduced to the fields the acceptance
paths consult. -/
structure IndexEntry where
  hash : Nat
  status : Nat
deriving DecidableEq, Repr

/-- `mapBlockIndex`, as an association list keyed by hash. -/
abbrev BlockMap := List IndexEntry

/-- `mapBlockIndex.find(hash)`. -/
def BlockMap.find (st : BlockMap) (h : Nat) : Option IndexEntry :=
  List.find? (fun e => e.hash = h) st

/-- `AddToBlockIndex(block)` (validation.cpp:3720-3752), reduced to the
index-map effect: return the existing entry for the hash if present,
otherwise append a fresh entry at validity `TREE` (the work, skip-pointer
and best-header bookkeeping is not consulted by the claims). -/
def addToBlockIndex (st : BlockMap) (h : Nat) : IndexEntry × BlockMap :=
  match st.find h with
  | some e => (e, st)
  | none =>
    let e : IndexEntry := ⟨h, BLOCK_VALID_TREE⟩
    (e, st ++ [e])

/-- The observable outcome of `AcceptBlockHeader`: overall success, the
entry delivered through `*ppindex`, the resulting index map, and whether
the validation work (`CheckBlockHeader` / checkpoint /
`ContextualCheckBlockHeader`) was executed on this call. -/
structure AcceptHeaderResult where
  success : Bool
  retEntry : Option IndexEntry
  map : BlockMap
  ranChecks : Bool
deriving Repr

/-- `AcceptBlockHeader(block, state, chainparams, ppindex)`
(validation.cpp:4175-4222).  `checksOk` bundles `CheckBlockHeader`, the
parent lookup and its failure bits, the checkpoint check and
`ContextualCheckBlockHeader` — everything on the fresh-header path; a known
hash returns the existing entry before any of it runs. -/
def acceptBlockHeader (genesisHash : Nat) (st : BlockMap) (h : Nat)
    (checksOk : Bool) : AcceptHeaderResult :=
  if h ≠ genesisHash then
    match st.find h with
    | some e =>
      { success := e.status &&& BLOCK_FAILED_MASK == 0
        retEntry := some e
        map := st
        ranChecks := false }
    | none =>
      if ¬checksOk then
        { success := false, retEntry := none, map := st, ranChecks := true }
      else
        let (e, st') := addToBlockIndex st h
        { success := true, retEntry := some e, map := st', ranChecks := true }
  else
    let (e, st') := addToBlockIndex st h
    { success := true, retEntry := some e, map := st', ranChecks := false }

/-- The observable outcome of `AcceptBlock`: overall success, whether the
block body was persisted (`FindBlockPos`/`WriteBlockToDisk`/
`ReceivedBlockTransactions`), the resulting index map, the `*fNewBlock`
flag, and whether the block-level validation (`CheckBlock` /
`ContextualCheckBlock`) ran. -/
structure AcceptBlockResult where
  success : Bool
  stored : Bool
  map : BlockMap
  fNewBlock : Bool
  ranChecks : Bool
deriving Repr

/-- `AcceptBlock(block, state, chainparams, ppindex, fRequested, dbp,
fNewBlock)` (validation.cpp:4231-4300 and onward), up to the point the
claims observe: accept the header; compute `fAlreadyHave`, `fHasMoreWork`
and `fTooFarAhead`; return early for already-stored or unrequested data;
otherwise run the block checks (`blockChecksOk` bundles `CheckBlock` and
`ContextualCheckBlock`) and, on success, persist.  A check failure sets
`BLOCK_FAILED_VALID` on the entry (the `CorruptionPossible` refinement is
outside the modelled data). -/
def acceptBlock (genesisHash : Nat) (st : BlockMap) (h : Nat)
    (headerChecksOk blockChecksOk fRequested fHasMoreWork fTooFarAhead
      prevProcessed : Bool) : AcceptBlockResult :=
  let hr := acceptBlockHeader genesisHash st h headerChecksOk
  if ¬hr.success then
    { success := false, stored := false, map := hr.map, fNewBlock := false
      ranChecks := false }
  else match hr.retEntry with
  | none =>
    { success := false, stored := false, map := hr.map, fNewBlock := false
      ranChecks := false }
  | some e =>
    let fAlreadyHave := e.status &&& BLOCK_HAVE_DATA ≠ 0
    if fAlreadyHave then
      { success := true, stored := false, map := hr.map, fNewBlock := false
        ranChecks := false }
    else if ¬fRequested && (prevProcessed || !fHasMoreWork || fTooFarAhead)
        then
      { success := true, stored := false, map := hr.map, fNewBlock := false
        ranChecks := false }
    else if ¬blockChecksOk then
      { success := false, stored := false
        map := hr.map.map (fun e' =>
          if e'.hash = h then
            { e' with status := e'.status ||| BLOCK_FAILED_VALID }
          else e')
        fNewBlock := true, ranChecks := true }
    else
      { success := true, stored := true
        map := hr.map.map (fun e' =>
          if e'.hash = h then
            { e' with status := e'.status ||| BLOCK_HAVE_DATA }
          else e')
        fNewBlock := true, ranChecks := true }

/-! ## Mempool admission: input resolution (validation.cpp:1270-1302) -/

/-- The outcome of the input-resolution step of `AcceptToMemoryPoolWorker`:
`alreadyKnown` is the `txn-already-known` rejection; `missingInputs` is the
`return false` with `*pfMissingInputs = true` and the validation state left
valid; `inputsSpent` is the `bad-txns-inputs-spent` rejection (state marked
invalid, `REJECT_DUPLICATE`). -/
inductive ResolveResult
  | alreadyKnown
  | missingInputs
  | inputsSpent
  | ok
deriving DecidableEq, Repr

/-- The input-resolution step (validation.cpp:1270-1302) against the
combined UTXO-cache-plus-mempool view `m` (`CCoinsViewCache` over
`CCoinsViewMemPool`): reject outputs already unspent in the view; report a
missing input for any prevout the view does not hold; then the
`view.HaveInputs(tx)` re-check, whose failure is `bad-txns-inputs-spent`. -/
def resolveInputs (m : CoinsMap) (tx : Transaction) : ResolveResult :=
  if (List.range tx.vout.length).any
      (fun k => m.haveCoin ⟨tx.txid, k⟩) then .alreadyKnown
  else if tx.vin.any (fun i => ¬m.haveCoin i.prevout) then .missingInputs
  else if ¬m.haveInputs tx then .inputsSpent
  else .ok

/-! ## Mempool admission: conflicts and replacement
(validation.cpp:1213-1259 and 1446-1581)

The mempool container (`txmempool.{h,cpp}`) is not in the snapshot; pool
entries are modelled from the spec, §3 ("MempoolEntry"): a pending
transaction with its size, (modified) fee and its in-mempool descendant
set.  The spec maintains descendant state for every entry, so the source's
`IsDirty()` escape hatch (untracked descendants) never holds and is
omitted.  The instant-send lock hooks are sidecar subsystems, out of scope
per the spec, and absent here. -/

/-- Well-formedness of a coin map, as maintained by the view primitives
themselves: every stored coin records a nonzero creation height (only the
unspendable genesis is at height `0`, and it is never connected through
`ConnectBlock`'s transaction path) and a spendable script (`AddCoin` never
stores unspendable coins). -/
def CoinsMap.wf (m : CoinsMap) : Prop :=
  ∀ o c, m o = some c →
    c.nHeight ≠ 0 ∧ c.out.scriptPubKey.unspendable = false

/-- The total sigop cost `ConnectBlock` accumulates over a transaction
list: legacy sigops for every transaction, plus — under BIP16 — P2SH sigops
for ordinary transactions, evaluated against the evolving view (a ghost
re-run of the loop without the limit checks). -/
def connectSigOpsTotal (env : ConnectEnv) :
    List Transaction → CoinsMap → Nat → Nat
  | [], _, s => s
  | tx :: rest, m, s =>
    let s1 := s + GetLegacySigOpCount tx
    let s2 := if ¬tx.isCoinBase ∧ ¬tx.isZerocoinSpend then
        (if env.strictPayToScriptHash then s1 + GetP2SHSigOpCount tx m
         else s1)
      else s1
    match UpdateCoins tx env.nHeight m with
    | none => s2
    | some (m', _) => connectSigOpsTotal env rest m' s2

/-- C3, counterexample.  The claim reads `GetBlockValue` as
`subsidy(height) + fees` with `subsidy(0) = 0`; but at height `0` the source
never adds the fees: `GetBlockValue(0, 5, t) = 0`, not `0 + 5`. -/
theorem getBlockValue_height0_fees_counterexample :
    ¬ (GetBlockValue 0 5 0 false 0 = subsidyCoinsSpec 0 * COIN + 5) := by
  decide

/-- C3, amended: for every height `h ≥ 1` (any fee, time, network and reward
start time) the block reward is `subsidy(h)·COIN + fees` with the claimed
schedule — flat `5000` coins for `1 ≤ h ≤ 143499`, the exact taper
`floor(0.5 + 5000·143500/(h+1))` for `143500 ≤ h ≤ HF_CHAIN_REWARD_END_HEIGHT`,
and `0` coins (fees only) past the terminal height; at height `0` the reward
is `0`, with the fees not added. -/
theorem getBlockValue_schedule (h fees t start : Int) (net : Bool)
    (hh : 1 ≤ h) :
    GetBlockValue h fees t net start = subsidyCoinsSpec h * COIN + fees ∧
    GetBlockValue 0 fees t net start = 0 := by
  constructor <;>
  · simp only [GetBlockValue, subsidyCoinsSpec, HF_CHAIN_REWARD_END_HEIGHT,
      Bool.or_eq_true, Bool.and_eq_true, decide_eq_true_eq, beq_iff_eq, COIN]
    split_ifs <;> omega

/-- C3, witness: the amended schedule evaluated at the first taper height. -/
theorem getBlockValue_schedule_witness :
    (1 : Int) ≤ 143500 ∧
    (GetBlockValue 143500 7 123 true 99 =
        subsidyCoinsSpec 143500 * COIN + 7 ∧
      GetBlockValue 0 7 123 true 99 = 0) :=
  ⟨by decide, getBlockValue_schedule 143500 7 123 99 true (by decide)⟩

/-! ## C10: the reward time gate is dead for positive heights -/

/-- C10: for `1 ≤ h ≤ 143499` the reward is `5000` coins plus fees for
every time argument, network flavour and reward start time — the
zero-reward time gate is unconditionally overwritten by the later
height-range assignments — and more generally the result is independent of
the time argument for every height `1 ≤ h ≤ HF_CHAIN_REWARD_END_HEIGHT`. -/
theorem getBlockValue_time_gate_dead (h fees t t' start start' : Int)
    (net net' : Bool) (h1 : 1 ≤ h) :
    (h ≤ 143499 → GetBlockValue h fees t net start = 5000 * COIN + fees) ∧
    (h ≤ HF_CHAIN_REWARD_END_HEIGHT →
      GetBlockValue h fees t net start = GetBlockValue h fees t' net' start') := by
  constructor <;>
  · intro h2
    simp only [GetBlockValue, HF_CHAIN_REWARD_END_HEIGHT, Bool.or_eq_true,
      Bool.and_eq_true, decide_eq_true_eq, beq_iff_eq, COIN]
    split_ifs <;> omega

/-- C10, witness: height `143499` (the last flat height), with the mainnet
time gate nominally active (`t < start`, `net = true`). -/
theorem getBlockValue_time_gate_dead_witness :
    (1 : Int) ≤ 143499 ∧
    (((143499 : Int) ≤ 143499 →
        GetBlockValue 143499 11 0 true 1000 = 5000 * COIN + 11) ∧
      ((143499 : Int) ≤ HF_CHAIN_REWARD_END_HEIGHT →
        GetBlockValue 143499 11 0 true 1000 =
          GetBlockValue 143499 11 9999 false 0)) :=
  ⟨by decide,
    getBlockValue_time_gate_dead 143499 11 0 9999 1000 0 true false (by decide)⟩

/-! ## C5: height-mode sequence locks -/

/-- C5: for a version-2-or-higher transaction checked with
`LOCKTIME_VERIFY_SEQUENCE`, whose single input is height-mode
sequence-locked with value `n` (no disable or type flag, i.e. `n < 2^16`)
and spends a coin created at height `h ≥ 0`, the sequence-lock check at
evaluation height `H` (with a nonnegative previous-block median time past)
passes exactly when `H ≥ h + n`.  In particular with `n = 5` it fails at
`H = h + 4` and passes at `H = h + 5`. -/
theorem sequenceLocks_height_mode (nVersion : Int) (txid : Nat)
    (vout : List TxOut) (prevout : OutPoint) (s : Script) (n : Nat)
    (h : Int) (flags : Nat) (coinTimeAt : Int → Int) (H prevMTP : Int)
    (hver : 2 ≤ castU32 nVersion)
    (hflag : flags &&& LOCKTIME_VERIFY_SEQUENCE ≠ 0)
    (hn : n < 2 ^ 16) (hh : 0 ≤ h) (hmtp : 0 ≤ prevMTP) :
    SequenceLocks ⟨nVersion, txid, [⟨prevout, s, n⟩], vout⟩ flags [h]
      coinTimeAt H prevMTP = true ↔ h + n ≤ H := by
  have hd : n &&& SEQUENCE_LOCKTIME_DISABLE_FLAG = 0 := by
    have hb : n.testBit 31 = false :=
      Nat.testBit_eq_false_of_lt (lt_trans hn (by norm_num))
    have h2 := Nat.and_two_pow n 31
    rw [hb] at h2
    simpa [SEQUENCE_LOCKTIME_DISABLE_FLAG] using h2
  have ht : n &&& SEQUENCE_LOCKTIME_TYPE_FLAG = 0 := by
    have hb : n.testBit 22 = false :=
      Nat.testBit_eq_false_of_lt (lt_trans hn (by norm_num))
    have h2 := Nat.and_two_pow n 22
    rw [hb] at h2
    simpa [SEQUENCE_LOCKTIME_TYPE_FLAG] using h2
  have hm : n &&& SEQUENCE_LOCKTIME_MASK = n := by
    have h16 : (SEQUENCE_LOCKTIME_MASK : Nat) = 2 ^ 16 - 1 := by
      norm_num [SEQUENCE_LOCKTIME_MASK]
    rw [h16, Nat.and_pow_two_sub_one_eq_mod, Nat.mod_eq_of_lt hn]
  unfold SequenceLocks CalculateSequenceLocks EvaluateSequenceLocks
  rw [if_neg (not_not_intro ⟨hver, hflag⟩)]
  simp only [List.zip_cons_cons, List.zip_nil_right, List.foldl_cons,
    List.foldl_nil, sequenceLockStep, hd, ht, hm, ne_eq,
    not_true_eq_false, not_false_eq_true, if_true, if_false]
  rw [max_eq_right (by omega : (-1 : Int) ≤ h + (n : Int) - 1)]
  simp only [decide_eq_true_eq, Bool.or_eq_true]
  omega

/-- C5, witness: sequence value `5`, coin height `10`: evaluation at height
`14 = 10 + 4` fails, at height `15 = 10 + 5` passes. -/
theorem sequenceLocks_height_mode_witness :
    (2 ≤ castU32 2 ∧ (1 : Nat) &&& LOCKTIME_VERIFY_SEQUENCE ≠ 0 ∧
      (5 : Nat) < 2 ^ 16 ∧ (0 : Int) ≤ 10 ∧ (0 : Int) ≤ 0) ∧
    (SequenceLocks ⟨2, 7, [⟨⟨1, 0⟩, ⟨0, 0, false, false, false⟩, 5⟩], []⟩ 1
        [10] (fun _ => 0) 14 0 = true ↔ (10 : Int) + (5 : Nat) ≤ 14) ∧
    (SequenceLocks ⟨2, 7, [⟨⟨1, 0⟩, ⟨0, 0, false, false, false⟩, 5⟩], []⟩ 1
        [10] (fun _ => 0) 15 0 = true ↔ (10 : Int) + (5 : Nat) ≤ 15) :=
  ⟨⟨by decide, by decide, by decide, by decide, by decide⟩,
    sequenceLocks_height_mode 2 7 [] ⟨1, 0⟩ ⟨0, 0, false, false, false⟩ 5 10 1
      (fun _ => 0) 14 0 (by decide) (by decide) (by decide) (by decide)
      (by decide),
    sequenceLocks_height_mode 2 7 [] ⟨1, 0⟩ ⟨0, 0, false, false, false⟩ 5 10 1
      (fun _ => 0) 15 0 (by decide) (by decide) (by decide) (by decide)
      (by decide)⟩

/-! ## C7: contextual header timestamp bounds -/

/-- C7: given a known parent and a correct difficulty target, the
contextual header check fails with `time-too-old` exactly when the header's
time is not strictly greater than the parent's median time past, fails with
`time-too-new` exactly when (the first bound holding) the time exceeds the
adjusted time plus the two-hour maximum future block time, and a header
satisfying both bounds fails neither timestamp check. -/
theorem contextualCheckBlockHeader_timestamps (blockTime : Int)
    (bits req : Nat) (nVersion : Int) (mtpPrev adjustedTime : Int)
    (superMajority : Int → Bool) (hbits : bits = req) :
    (ContextualCheckBlockHeader blockTime bits req nVersion mtpPrev
        adjustedTime superMajority = some .timeTooOld ↔
      blockTime ≤ mtpPrev) ∧
    (ContextualCheckBlockHeader blockTime bits req nVersion mtpPrev
        adjustedTime superMajority = some .timeTooNew ↔
      (mtpPrev < blockTime ∧
        adjustedTime + MAX_FUTURE_BLOCK_TIME < blockTime)) ∧
    (mtpPrev < blockTime → blockTime ≤ adjustedTime + MAX_FUTURE_BLOCK_TIME →
      ContextualCheckBlockHeader blockTime bits req nVersion mtpPrev
          adjustedTime superMajority ≠ some .timeTooOld ∧
        ContextualCheckBlockHeader blockTime bits req nVersion mtpPrev
          adjustedTime superMajority ≠ some .timeTooNew) := by
  subst hbits
  unfold ContextualCheckBlockHeader
  split_ifs with h1 h2 h3 h4 <;> simp_all

/-- C7, witness: parent median time past `1000`, adjusted time `1000`:
time `1000` is too old, time `1000 + 7201` too new, and a time within both
bounds (`2000`) fails neither timestamp check. -/
theorem contextualCheckBlockHeader_timestamps_witness :
    ((596 : Nat) = 596) ∧
    ((ContextualCheckBlockHeader 1000 596 596 4 1000 1000 (fun _ => false) =
        some HeaderErr.timeTooOld ↔ (1000 : Int) ≤ 1000) ∧
      (ContextualCheckBlockHeader 1000 596 596 4 1000 1000 (fun _ => false) =
        some HeaderErr.timeTooNew ↔ ((1000 : Int) < 1000 ∧
          (1000 : Int) + MAX_FUTURE_BLOCK_TIME < 1000)) ∧
      ((1000 : Int) < 1000 → (1000 : Int) ≤ 1000 + MAX_FUTURE_BLOCK_TIME →
        ContextualCheckBlockHeader 1000 596 596 4 1000 1000 (fun _ => false) ≠
          some HeaderErr.timeTooOld ∧
        ContextualCheckBlockHeader 1000 596 596 4 1000 1000 (fun _ => false) ≠
          some HeaderErr.timeTooNew)) :=
  ⟨rfl, contextualCheckBlockHeader_timestamps 1000 596 596 4 1000 1000
    (fun _ => false) rfl⟩

/-! ## C4: the BIP30 duplicate-coinbase rule -/

/-- The per-transaction structural checks never produce the BIP30 error. -/
theorem checkTransactionBasic_ne_bip30 (tx : Transaction) :
    checkTransactionBasic tx ≠ some .badTxnsBIP30 := by
  unfold checkTransactionBasic
  split_ifs <;> simp

/-- Scanning a transaction list with the structural checks never produces
the BIP30 error. -/
theorem findSome_checkTx_ne_bip30 (l : List Transaction) :
    l.findSome? checkTransactionBasic ≠ some .badTxnsBIP30 := by
  induction l with
  | nil => simp [List.findSome?]
  | cons hd tl ih =>
    rw [List.findSome?_cons]
    cases h : checkTransactionBasic hd with
    | none => exact ih
    | some e =>
      have := checkTransactionBasic_ne_bip30 hd
      rw [h] at this
      simpa using fun he => this (by rw [he])

/-- `CheckBlock` never produces the BIP30 error (it is issued only by
`ConnectBlock`'s duplicate scan). -/
theorem checkBlockCore_ne_bip30 (b : Block) (ok : Bool) :
    checkBlockCore b ok ≠ some .badTxnsBIP30 := by
  intro he
  simp only [checkBlockCore] at he
  split at he
  · simp at he
  · split at he
    · simp at he
    · split at he
      · simp at he
      · split at he
        · simp at he
        · split at he
          · rename_i e heq
            cases he
            exact findSome_checkTx_ne_bip30 b.vtx heq
          · split at he <;> simp at he

/-- The connect loop body never produces the BIP30 error. -/
theorem connectTx_ne_bip30 (env : ConnectEnv) (m : CoinsMap) (s i : Nat)
    (tx : Transaction) : connectTx env m s i tx ≠ .error .badTxnsBIP30 := by
  intro he
  simp only [connectTx] at he
  iterate 10 (all_goals try split at he)
  all_goals simp at he

/-- The connect loop never produces the BIP30 error. -/
theorem connectTxs_ne_bip30 (env : ConnectEnv) (l : List Transaction) :
    ∀ (i : Nat) (m : CoinsMap) (s : Nat),
      connectTxs env l i m s ≠ .error .badTxnsBIP30 := by
  induction l with
  | nil => intro i m s; simp [connectTxs]
  | cons tx rest ih =>
    intro i m s he
    simp only [connectTxs] at he
    split at he
    · rename_i e heq
      cases he
      exact connectTx_ne_bip30 env m s i tx heq
    · rename_i m' u s' heq
      split at he
      · rename_i e heq2
        cases he
        exact ih (i + 1) m' s' heq2
      · simp at he

/-- C4: `ConnectBlock` rejects with `bad-txns-BIP30` exactly when — the
earlier checks passing (`CheckBlock` clean, view at the parent, not the
genesis block) — BIP30 is enforced for the block's `(height, hash)` and
some transaction output outpoint is already unspent in the view; and
enforcement is skipped exactly for the two whitelisted `(height, hash)`
pairs. -/
theorem connectBlock_bip30 (env : ConnectEnv) (b : Block) (v : CoinsView) :
    (connectCore env b v = .error .badTxnsBIP30 ↔
      (checkBlockCore b env.otherChecksOk = none ∧
        env.parentHash = v.bestBlock ∧ b.hash ≠ env.genesisHash ∧
        fEnforceBIP30 env.nHeight b.hash = true ∧
        bip30Violation b v.coins = true)) ∧
    (fEnforceBIP30 env.nHeight b.hash = false ↔
      ((env.nHeight = 91842 ∧ b.hash = bip30WhitelistHash1) ∨
        (env.nHeight = 91880 ∧ b.hash = bip30WhitelistHash2))) := by
  constructor
  · constructor
    · intro he
      simp only [connectCore] at he
      split at he
      · rename_i e heq
        cases he
        exact absurd heq (checkBlockCore_ne_bip30 b env.otherChecksOk)
      · rename_i heq
        split at he
        · simp at he
        · rename_i hp
          split at he
          · simp at he
          · rename_i hg
            split at he
            · rename_i hbip
              rw [Bool.and_eq_true] at hbip
              exact ⟨heq, not_not.mp hp, hg, hbip.1, hbip.2⟩
            · split at he
              · simp at he
              · rename_i cb rest hvtx
                split at he
                · rename_i e hct
                  cases he
                  exact absurd hct (connectTx_ne_bip30 env v.coins 0 0 cb)
                · rename_i m1 u1 s1 hct
                  split at he
                  · rename_i e hcts
                    cases he
                    exact absurd hcts (connectTxs_ne_bip30 env rest 1 m1 s1)
                  · rename_i m2 us s2 hcts
                    split at he <;> simp at he
    · rintro ⟨hcb, hp, hg, hbip1, hbip2⟩
      simp only [connectCore, hcb]
      rw [if_neg (not_not_intro hp), if_neg hg,
        if_pos (by rw [Bool.and_eq_true]; exact ⟨hbip1, hbip2⟩)]
  · unfold fEnforceBIP30 bip34ShortcutActive
    simp [bip30WhitelistHash1, bip30WhitelistHash2]
    tauto

/-! ## C9: missing inputs versus spent inputs -/

/-- C9, counterexample.  In the per-output combined view a spent output is
absent ("miss-as-spent"), so a transaction whose referenced output has been
spent is reported through the missing-inputs path (flag set, state not
marked invalid) — not with the claimed distinct `bad-txns-inputs-spent`
rejection.  Here the view holds an unrelated coin and the spent prevout
`(3,0)` resolves to `none`. -/
theorem resolveInputs_spent_counterexample :
    resolveInputs
        (fun o => if o = ⟨9, 0⟩ then
          some ⟨⟨5, ⟨0, 0, false, false, false⟩⟩, false, 1⟩ else none)
        ⟨1, 7, [⟨⟨3, 0⟩, ⟨0, 0, false, false, false⟩, 0⟩],
          [⟨5, ⟨0, 0, false, false, false⟩⟩]⟩ = .missingInputs ∧
      resolveInputs
        (fun o => if o = ⟨9, 0⟩ then
          some ⟨⟨5, ⟨0, 0, false, false, false⟩⟩, false, 1⟩ else none)
        ⟨1, 7, [⟨⟨3, 0⟩, ⟨0, 0, false, false, false⟩, 0⟩],
          [⟨5, ⟨0, 0, false, false, false⟩⟩]⟩ ≠ .inputsSpent := by
  constructor
  · rfl
  · intro h
    rw [show resolveInputs
        (fun o => if o = ⟨9, 0⟩ then
          some ⟨⟨5, ⟨0, 0, false, false, false⟩⟩, false, 1⟩ else none)
        ⟨1, 7, [⟨⟨3, 0⟩, ⟨0, 0, false, false, false⟩, 0⟩],
          [⟨5, ⟨0, 0, false, false, false⟩⟩]⟩ = ResolveResult.missingInputs
      from rfl] at h
    cases h

/-- C9, amended: the input-resolution step reports a prevout the combined
view does not hold — be it never-created or already spent, the per-output
view does not distinguish them — through the missing-inputs path (flag
set, validation state not marked invalid); the `bad-txns-inputs-spent`
rejection is unreachable, because the `HaveInputs` re-check consults the
same per-outpoint lookups as the loop before it. -/
theorem resolveInputs_missing_vs_spent (m : CoinsMap) (tx : Transaction) :
    resolveInputs m tx ≠ .inputsSpent ∧
    ((∀ k, k < tx.vout.length → m ⟨tx.txid, k⟩ = none) →
      (∃ i ∈ tx.vin, m i.prevout = none) →
      resolveInputs m tx = .missingInputs) := by
  constructor
  · intro he
    simp only [resolveInputs] at he
    split at he
    · cases he
    · split at he
      · cases he
      · split at he
        · rename_i h1 h2 h3
          apply h3
          simp only [CoinsMap.haveInputs, Bool.or_eq_true, List.all_eq_true]
          right
          intro i hi
          by_contra hc
          apply h2
          simp only [List.any_eq_true, decide_eq_true_eq]
          exact ⟨i, hi, fun htrue => hc htrue⟩
        · cases he
  · intro hout hmiss
    simp only [resolveInputs]
    rw [if_neg, if_pos]
    · simp only [List.any_eq_true, decide_eq_true_eq]
      obtain ⟨i, hi, hnone⟩ := hmiss
      refine ⟨i, hi, ?_⟩
      simp [CoinsMap.haveCoin, hnone]
    · simp only [List.any_eq_true, List.mem_range]
      rintro ⟨k, hk, hcoin⟩
      rw [CoinsMap.haveCoin, hout k hk] at hcoin
      cases hcoin

/-- C9, witness: the amended behaviour at a concrete view and transaction
(an input whose coin is absent/spent). -/
theorem resolveInputs_missing_vs_spent_witness :
    resolveInputs (fun _ => none)
        ⟨1, 8, [⟨⟨4, 1⟩, ⟨0, 0, false, false, false⟩, 0⟩],
          [⟨6, ⟨0, 0, false, false, false⟩⟩]⟩ ≠ .inputsSpent ∧
      resolveInputs (fun _ => none)
        ⟨1, 8, [⟨⟨4, 1⟩, ⟨0, 0, false, false, false⟩, 0⟩],
          [⟨6, ⟨0, 0, false, false, false⟩⟩]⟩ = .missingInputs :=
  ⟨(resolveInputs_missing_vs_spent (fun _ => none)
      ⟨1, 8, [⟨⟨4, 1⟩, ⟨0, 0, false, false, false⟩, 0⟩],
        [⟨6, ⟨0, 0, false, false, false⟩⟩]⟩).1,
    (resolveInputs_missing_vs_spent (fun _ => none)
      ⟨1, 8, [⟨⟨4, 1⟩, ⟨0, 0, false, false, false⟩, 0⟩],
        [⟨6, ⟨0, 0, false, false, false⟩⟩]⟩).2
      (fun _ _ => rfl)
      ⟨⟨⟨4, 1⟩, ⟨0, 0, false, false, false⟩, 0⟩, by simp, rfl⟩⟩

/-! ## C8: re-submission of known data -/

/-- C8, counterexample.  An index entry can carry `HAVE_DATA` together with
a failure bit (the block's data was stored, then `ConnectBlock` failed and
set `BLOCK_FAILED_VALID`).  Re-delivering such a block does not "return
success": `AcceptBlockHeader` rejects it as a marked-invalid duplicate
before `AcceptBlock` reaches the `fAlreadyHave` early return. -/
theorem acceptBlock_failed_entry_counterexample :
    (BLOCK_HAVE_DATA ||| BLOCK_FAILED_VALID) &&& BLOCK_HAVE_DATA ≠ 0 ∧
      (acceptBlock 0 [⟨5, BLOCK_HAVE_DATA ||| BLOCK_FAILED_VALID⟩] 5
        true true true true false false).success = false := by
  decide

/-- C8, amended: re-submission of already-known data is an idempotent
no-op.  A header whose hash is already in the block index returns the
existing entry, creates no new entry and re-runs no validation (this holds
whether or not the entry is failed; for a failed entry the overall result
is the `duplicate` rejection).  A full block whose entry has `HAVE_DATA`
set returns success without re-writing the block or changing any entry
state — provided the entry carries no failure bit; a failed entry is
rejected by the header stage without any state change. -/
theorem acceptKnownData_idempotent (genesis : Nat) (st : BlockMap)
    (h : Nat) (e : IndexEntry)
    (checksOk blockChecksOk fRequested fHasMoreWork fTooFarAhead
      prevProcessed : Bool)
    (hfound : st.find h = some e) (hgen : h ≠ genesis) :
    ((acceptBlockHeader genesis st h checksOk).map = st ∧
      (acceptBlockHeader genesis st h checksOk).retEntry = some e ∧
      (acceptBlockHeader genesis st h checksOk).ranChecks = false) ∧
    (e.status &&& BLOCK_HAVE_DATA ≠ 0 →
      e.status &&& BLOCK_FAILED_MASK = 0 →
      ((acceptBlock genesis st h checksOk blockChecksOk fRequested
          fHasMoreWork fTooFarAhead prevProcessed).success = true ∧
        (acceptBlock genesis st h checksOk blockChecksOk fRequested
          fHasMoreWork fTooFarAhead prevProcessed).stored = false ∧
        (acceptBlock genesis st h checksOk blockChecksOk fRequested
          fHasMoreWork fTooFarAhead prevProcessed).map = st ∧
        (acceptBlock genesis st h checksOk blockChecksOk fRequested
          fHasMoreWork fTooFarAhead prevProcessed).fNewBlock = false ∧
        (acceptBlock genesis st h checksOk blockChecksOk fRequested
          fHasMoreWork fTooFarAhead prevProcessed).ranChecks = false)) := by
  constructor
  · simp [acceptBlockHeader, if_pos hgen, hfound]
  · intro hdata hfail
    simp only [acceptBlock, acceptBlockHeader, if_pos hgen, hfound]
    have hsucc : (e.status &&& BLOCK_FAILED_MASK == 0) = true := by
      simp [hfail]
    simp [hsucc, hdata]

/-- C8, witness: a stored, non-failed entry; header and block re-submission
are both no-ops. -/
theorem acceptKnownData_idempotent_witness :
    ((acceptBlockHeader 0 [⟨5, BLOCK_VALID_TREE ||| BLOCK_HAVE_DATA⟩] 5
        true).map = [⟨5, BLOCK_VALID_TREE ||| BLOCK_HAVE_DATA⟩] ∧
      (acceptBlockHeader 0 [⟨5, BLOCK_VALID_TREE ||| BLOCK_HAVE_DATA⟩] 5
        true).retEntry = some ⟨5, BLOCK_VALID_TREE ||| BLOCK_HAVE_DATA⟩ ∧
      (acceptBlockHeader 0 [⟨5, BLOCK_VALID_TREE ||| BLOCK_HAVE_DATA⟩] 5
        true).ranChecks = false) ∧
    ((acceptBlock 0 [⟨5, BLOCK_VALID_TREE ||| BLOCK_HAVE_DATA⟩] 5
        true true true true false false).success = true ∧
      (acceptBlock 0 [⟨5, BLOCK_VALID_TREE ||| BLOCK_HAVE_DATA⟩] 5
        true true true true false false).stored = false ∧
      (acceptBlock 0 [⟨5, BLOCK_VALID_TREE ||| BLOCK_HAVE_DATA⟩] 5
        true true true true false false).map =
        [⟨5, BLOCK_VALID_TREE ||| BLOCK_HAVE_DATA⟩] ∧
      (acceptBlock 0 [⟨5, BLOCK_VALID_TREE ||| BLOCK_HAVE_DATA⟩] 5
        true true true true false false).fNewBlock = false ∧
      (acceptBlock 0 [⟨5, BLOCK_VALID_TREE ||| BLOCK_HAVE_DATA⟩] 5
        true true true true false false).ranChecks = false) :=
  ⟨(acceptKnownData_idempotent 0 [⟨5, BLOCK_VALID_TREE ||| BLOCK_HAVE_DATA⟩]
      5 ⟨5, BLOCK_VALID_TREE ||| BLOCK_HAVE_DATA⟩ true true true true false
      false (by decide) (by decide)).1,
    (acceptKnownData_idempotent 0 [⟨5, BLOCK_VALID_TREE ||| BLOCK_HAVE_DATA⟩]
      5 ⟨5, BLOCK_VALID_TREE ||| BLOCK_HAVE_DATA⟩ true true true true false
      false (by decide) (by decide)).2 (by decide) (by decide)⟩

/-! ## C6: mempool conflicts and replacement -/

/-- The per-transaction structural checks never produce the sigop error. -/
theorem checkTransactionBasic_ne_sigops (tx : Transaction) :
    checkTransactionBasic tx ≠ some .badBlkSigops := by
  unfold checkTransactionBasic
  split_ifs <;> simp

/-- Scanning a transaction list with the structural checks never produces
the sigop error. -/
theorem findSome_checkTx_ne_sigops (l : List Transaction) :
    l.findSome? checkTransactionBasic ≠ some .badBlkSigops := by
  induction l with
  | nil => simp [List.findSome?]
  | cons hd tl ih =>
    rw [List.findSome?_cons]
    cases h : checkTransactionBasic hd with
    | none => exact ih
    | some e =>
      have := checkTransactionBasic_ne_sigops hd
      rw [h] at this
      simpa using fun he => this (by rw [he])

/-- A successful `connectTx` run pins down the effect of changing the
sigop limit: with limit `M` the same call succeeds with the same result
when the accumulated count stays within `M`, and rejects with
`bad-blk-sigops` otherwise; the accumulated count never decreases. -/
theorem connectTx_sigops (env : ConnectEnv) (m : CoinsMap) (s i : Nat)
    (tx : Transaction) (m' : CoinsMap) (u : List Coin) (s2 : Nat)
    (h : connectTx env m s i tx = .ok (m', u, s2)) (M : Nat) :
    s ≤ s2 ∧
    connectTx { env with maxBlockSigops := M } m s i tx =
      (if s2 ≤ M then .ok (m', u, s2) else .error .badBlkSigops) := by
  by_cases hstrict : env.strictPayToScriptHash = true
  · simp only [connectTx, hstrict, if_true, true_and, reduceIte] at h ⊢
    split at h
    · cases h
    · rename_i h1
      split at h
      · rename_i hord
        split at h
        · cases h
        · rename_i h2
          split at h
          · cases h
          · rename_i h3
            split at h
            · cases h
            · rename_i h4
              split at h
              · cases h
              · rename_i h5
                split at h
                · cases h
                · rename_i m1 u1 hUC
                  simp only [Except.ok.injEq, Prod.mk.injEq] at h
                  obtain ⟨rfl, rfl, rfl⟩ := h
                  refine ⟨le_trans (Nat.le_add_right s _)
                    (Nat.le_add_right _ _), ?_⟩
                  by_cases hM :
                      s + GetLegacySigOpCount tx + GetP2SHSigOpCount tx m ≤ M
                  · rw [if_pos hM,
                      if_neg (not_lt.mpr (le_trans (Nat.le_add_right _ _) hM)),
                      if_pos hord, if_neg h2, if_neg h3,
                      if_neg (not_lt.mpr hM), if_neg h5]
                  · rw [if_neg hM]
                    by_cases hs1 : M < s + GetLegacySigOpCount tx
                    · rw [if_pos hs1]
                    · rw [if_neg hs1, if_pos hord, if_neg h2, if_neg h3,
                        if_pos (not_le.mp hM)]
      · rename_i hord
        split at h
        · cases h
        · rename_i m1 u1 hUC
          simp only [Except.ok.injEq, Prod.mk.injEq] at h
          obtain ⟨rfl, rfl, rfl⟩ := h
          refine ⟨Nat.le_add_right s _, ?_⟩
          by_cases hM : s + GetLegacySigOpCount tx ≤ M
          · rw [if_pos hM, if_neg (not_lt.mpr hM), if_neg hord]
          · rw [if_neg hM, if_pos (not_le.mp hM)]
  · rw [Bool.not_eq_true] at hstrict
    simp only [connectTx, hstrict, Bool.false_eq_true, if_false, false_and,
      reduceIte] at h ⊢
    split at h
    · cases h
    · rename_i h1
      split at h
      · rename_i hord
        split at h
        · cases h
        · rename_i h2
          split at h
          · cases h
          · rename_i h3
            split at h
            · cases h
            · rename_i h5
              split at h
              · cases h
              · rename_i m1 u1 hUC
                simp only [Except.ok.injEq, Prod.mk.injEq] at h
                obtain ⟨rfl, rfl, rfl⟩ := h
                refine ⟨Nat.le_add_right s _, ?_⟩
                by_cases hM : s + GetLegacySigOpCount tx ≤ M
                · rw [if_pos hM, if_neg (not_lt.mpr hM), if_pos hord,
                    if_neg h2, if_neg h3, if_neg h5]
                · rw [if_neg hM, if_pos (not_le.mp hM)]
      · rename_i hord
        split at h
        · cases h
        · rename_i m1 u1 hUC
          simp only [Except.ok.injEq, Prod.mk.injEq] at h
          obtain ⟨rfl, rfl, rfl⟩ := h
          refine ⟨Nat.le_add_right s _, ?_⟩
          by_cases hM : s + GetLegacySigOpCount tx ≤ M
          · rw [if_pos hM, if_neg (not_lt.mpr hM), if_neg hord]
          · rw [if_neg hM, if_pos (not_le.mp hM)]

/-- A successful `connectTx` run used the view update recorded in its
result, and its returned accumulator is the ghost per-transaction sigop
total. -/
theorem connectTx_elim (env : ConnectEnv) (m : CoinsMap) (s i : Nat)
    (tx : Transaction) (m' : CoinsMap) (u : List Coin) (s2 : Nat)
    (h : connectTx env m s i tx = .ok (m', u, s2)) :
    UpdateCoins tx env.nHeight m = some (m', u) ∧
    connectSigOpsTotal env [tx] m s = s2 := by
  simp only [connectTx] at h
  iterate 8 (all_goals try split at h)
  all_goals try cases h
  all_goals
    (rename_i x hUC
     refine ⟨hUC, ?_⟩
     simp_all [connectSigOpsTotal, hUC])

/-- Unfolding the ghost sigop total across one transaction whose view
update succeeds. -/
theorem connectSigOpsTotal_cons (env : ConnectEnv) (tx : Transaction)
    (rest : List Transaction) (m : CoinsMap) (s : Nat) (m1 : CoinsMap)
    (u : List Coin) (hUC : UpdateCoins tx env.nHeight m = some (m1, u)) :
    connectSigOpsTotal env (tx :: rest) m s =
      connectSigOpsTotal env rest m1 (connectSigOpsTotal env [tx] m s) := by
  simp only [connectSigOpsTotal, hUC]

/-- A successful loop run returns the ghost sigop total and one undo
record per transaction. -/
theorem connectTxs_total (env : ConnectEnv) (l : List Transaction) :
    ∀ (i : Nat) (m : CoinsMap) (s : Nat) (m' : CoinsMap)
      (us : List (List Coin)) (s' : Nat),
      connectTxs env l i m s = .ok (m', us, s') →
      connectSigOpsTotal env l m s = s' ∧ us.length = l.length := by
  induction l with
  | nil =>
    intro i m s m' us s' h
    simp only [connectTxs, Except.ok.injEq, Prod.mk.injEq] at h
    obtain ⟨rfl, rfl, rfl⟩ := h
    exact ⟨rfl, rfl⟩
  | cons tx rest ih =>
    intro i m s m' us s' h
    simp only [connectTxs] at h
    split at h
    · cases h
    · rename_i m1 u1 s1 hct
      split at h
      · cases h
      · rename_i m2 us2 s2 hcts
        simp only [Except.ok.injEq, Prod.mk.injEq] at h
        obtain ⟨rfl, rfl, rfl⟩ := h
        obtain ⟨hUC, htot⟩ := connectTx_elim env m s i tx m1 u1 s1 hct
        obtain ⟨htot2, hlen⟩ := ih (i + 1) m1 s1 m2 us2 s2 hcts
        refine ⟨?_, by simp [hlen]⟩
        rw [connectSigOpsTotal_cons env tx rest m s m1 u1 hUC, htot, htot2]

/-- A successful loop run pins down the effect of changing the sigop
limit: within the final total the run is unchanged; above it (strictly
above the incoming accumulator) the run rejects with `bad-blk-sigops`. -/
theorem connectTxs_sigops (env : ConnectEnv) (l : List Transaction) :
    ∀ (i : Nat) (m : CoinsMap) (s : Nat) (m' : CoinsMap)
      (us : List (List Coin)) (s' : Nat),
      connectTxs env l i m s = .ok (m', us, s') →
      ∀ M : Nat,
        s ≤ s' ∧
        (s' ≤ M → connectTxs { env with maxBlockSigops := M } l i m s =
          .ok (m', us, s')) ∧
        (M < s' → s < s' → connectTxs { env with maxBlockSigops := M } l i m s =
          .error .badBlkSigops) := by
  induction l with
  | nil =>
    intro i m s m' us s' h M
    simp only [connectTxs, Except.ok.injEq, Prod.mk.injEq] at h
    obtain ⟨rfl, rfl, rfl⟩ := h
    exact ⟨le_refl s, fun _ => rfl, fun h1 h2 => absurd h2 (lt_irrefl s)⟩
  | cons tx rest ih =>
    intro i m s m' us s' h M
    simp only [connectTxs] at h
    split at h
    · cases h
    · rename_i m1 u1 s1 hct
      split at h
      · cases h
      · rename_i m2 us2 s2 hcts
        simp only [Except.ok.injEq, Prod.mk.injEq] at h
        obtain ⟨rfl, rfl, rfl⟩ := h
        obtain ⟨hs1, hctM⟩ := connectTx_sigops env m s i tx m1 u1 s1 hct M
        obtain ⟨hs2, hokM, herrM⟩ := ih (i + 1) m1 s1 m2 us2 s2 hcts M
        refine ⟨le_trans hs1 hs2, ?_, ?_⟩
        · intro hle
          simp only [connectTxs]
          rw [hctM, if_pos (le_trans hs2 hle)]
          dsimp only
          rw [hokM hle]
        · intro hM _
          simp only [connectTxs]
          by_cases hs1M : s1 ≤ M
          · rw [hctM, if_pos hs1M]
            dsimp only
            rw [herrM hM (lt_of_le_of_lt hs1M hM)]
          · rw [hctM, if_neg hs1M]

/-- Destructor for a successful non-genesis `connectCore` run. -/
theorem connectCore_ok_elim (env : ConnectEnv) (b : Block) (v : CoinsView)
    (v' : CoinsView) (undos : List (List Coin))
    (h : connectCore env b v = .ok (v', undos))
    (hgen : b.hash ≠ env.genesisHash) :
    checkBlockCore b env.otherChecksOk = none ∧
    env.parentHash = v.bestBlock ∧
    (fEnforceBIP30 env.nHeight b.hash && bip30Violation b v.coins) = false ∧
    env.miningOk = true ∧
    ∃ cb rest m1 u1 s1 s2,
      b.vtx = cb :: rest ∧
      connectTx env v.coins 0 0 cb = .ok (m1, u1, s1) ∧
      connectTxs env rest 1 m1 s1 = .ok (v'.coins, undos, s2) ∧
      v'.bestBlock = b.hash := by
  simp only [connectCore] at h
  cases hcb : checkBlockCore b env.otherChecksOk with
  | some e => simp [hcb] at h
  | none =>
    simp only [hcb] at h
    by_cases hp : env.parentHash = v.bestBlock
    · rw [if_neg (not_not_intro hp), if_neg hgen] at h
      by_cases hb : (fEnforceBIP30 env.nHeight b.hash &&
          bip30Violation b v.coins) = true
      · rw [if_pos hb] at h
        cases h
      · rw [if_neg hb] at h
        cases hvtx : b.vtx with
        | nil => simp [hvtx] at h
        | cons cb rest =>
          simp only [hvtx] at h
          cases hct : connectTx env v.coins 0 0 cb with
          | error e => simp [hct] at h
          | ok r =>
            obtain ⟨m1, u1, s1⟩ := r
            simp only [hct] at h
            cases hcts : connectTxs env rest 1 m1 s1 with
            | error e => simp [hcts] at h
            | ok r2 =>
              obtain ⟨m2, us2, s2⟩ := r2
              simp only [hcts] at h
              by_cases hmin : env.miningOk = true
              · rw [if_neg (not_not_intro hmin)] at h
                simp only [Except.ok.injEq, Prod.mk.injEq] at h
                obtain ⟨rfl, rfl⟩ := h
                exact ⟨rfl, hp, by simpa using hb, hmin,
                  cb, rest, m1, u1, s1, s2, rfl, hct, hcts, rfl⟩
              · rw [if_pos hmin] at h
                cases h
    · rw [if_pos hp] at h
      cases h

/-- C2, amended: the two sigop limits differ.  `CheckBlock` rejects with
`bad-blk-sigops` exactly when the weighted legacy sigop count exceeds
`MAX_BLOCK_SIGOPS_COST = 160000` (the other structural checks passing).
`ConnectBlock` enforces the separate raw-count limit `maxBlockSigops =
maxBlockSize/50` (`20000` at the default 1 MB size), on the running legacy
count plus — under BIP16 — the P2SH count: a run that succeeds at some
limit, re-run at limit `M`, succeeds unchanged when its accumulated total
is within `M` and rejects with `bad-blk-sigops` when it exceeds `M`. -/
theorem blockSigops_limits (b : Block) (ok : Bool) (cb : Transaction)
    (rest : List Transaction) (env : ConnectEnv) (v v' : CoinsView)
    (undos : List (List Coin)) :
    (checkBlockCore b ok = some .badBlkSigops →
      MAX_BLOCK_SIGOPS_COST <
        (b.vtx.map GetLegacySigOpCount).sum * WITNESS_SCALE_FACTOR) ∧
    (ok = true → b.vtx = cb :: rest → cb.isCoinBase = true →
      rest.any (·.isCoinBase) = false →
      b.vtx.findSome? checkTransactionBasic = none →
      (checkBlockCore b ok = some .badBlkSigops ↔
        MAX_BLOCK_SIGOPS_COST <
          (b.vtx.map GetLegacySigOpCount).sum * WITNESS_SCALE_FACTOR)) ∧
    (connectCore env b v = .ok (v', undos) → b.hash ≠ env.genesisHash →
      ∀ M : Nat,
        connectCore { env with maxBlockSigops := M } b v =
          (if connectSigOpsTotal env b.vtx v.coins 0 ≤ M then .ok (v', undos)
           else .error .badBlkSigops)) := by
  refine ⟨?_, ?_, ?_⟩
  · intro h
    simp only [checkBlockCore] at h
    iterate 6 (all_goals try split at h)
    all_goals try cases h
    all_goals first
    | assumption
    | exact absurd ‹b.vtx.findSome? checkTransactionBasic =
        some BlockErr.badBlkSigops› (findSome_checkTx_ne_sigops b.vtx)
  · intro hok hvtx h1 h2 hfs
    subst hok
    rw [hvtx] at hfs
    simp only [checkBlockCore, hvtx, hfs, h1, h2, not_true_eq_false,
      Bool.false_eq_true, if_false]
    split_ifs with hc <;>
      simp only [List.map_cons, List.sum_cons, gt_iff_lt] at hc ⊢ <;>
      simp [hc]
  · intro hconn hgen M
    obtain ⟨hcb, hp, hbip, hmin, cb2, rest2, m1, u1, s1, s2, hvtx2, hct,
      hcts, hbest⟩ := connectCore_ok_elim env b v v' undos hconn hgen
    have htot : connectSigOpsTotal env b.vtx v.coins 0 = s2 := by
      obtain ⟨hUC, htx⟩ := connectTx_elim env v.coins 0 0 cb2 m1 u1 s1 hct
      rw [hvtx2, connectSigOpsTotal_cons env cb2 rest2 v.coins 0 m1 u1 hUC,
        htx]
      exact (connectTxs_total env rest2 1 m1 s1 v'.coins undos s2 hcts).1
    obtain ⟨hs12, hok2, herr2⟩ :=
      connectTxs_sigops env rest2 1 m1 s1 v'.coins undos s2 hcts M
    obtain ⟨hs01, hctM⟩ := connectTx_sigops env v.coins 0 0 cb2 m1 u1 s1 hct M
    simp only [connectCore]
    dsimp only
    simp only [hcb]
    rw [if_neg (not_not_intro hp), if_neg hgen, if_neg (by simp [hbip])]
    simp only [hvtx2]
    rw [hvtx2] at htot
    rw [hctM]
    by_cases hM : connectSigOpsTotal env (cb2 :: rest2) v.coins 0 ≤ M
    · rw [if_pos hM]
      rw [htot] at hM
      rw [if_pos (le_trans hs12 hM)]
      dsimp only
      rw [hok2 hM]
      dsimp only
      rw [if_neg (not_not_intro hmin), ← hbest]
    · rw [if_neg hM]
      rw [htot] at hM
      by_cases hs1M : s1 ≤ M
      · rw [if_pos hs1M]
        dsimp only
        rw [herr2 (not_le.mp hM) (lt_of_le_of_lt hs1M (not_le.mp hM))]
      · rw [if_neg hs1M]

/-- C2, counterexample.  A single-coinbase block carrying `20001` legacy
sigops: its weighted count `80004` is within the claimed `160000` limit —
`CheckBlock` accepts it — yet `ConnectBlock` (at the default
`maxBlockSigops = 20000`) rejects it with `bad-blk-sigops`.  The two
checks do not enforce "the same block-sigop limit". -/
theorem blockSigops_limits_counterexample :
    ((Block.mk 9 [⟨1, 10, [⟨⟨0, 4294967295⟩, ⟨0, 0, false, false, false⟩, 0⟩],
        [⟨50, ⟨20001, 0, false, false, false⟩⟩]⟩]).vtx.map
          GetLegacySigOpCount).sum * WITNESS_SCALE_FACTOR ≤
        MAX_BLOCK_SIGOPS_COST ∧
      checkBlockCore
        ⟨9, [⟨1, 10, [⟨⟨0, 4294967295⟩, ⟨0, 0, false, false, false⟩, 0⟩],
          [⟨50, ⟨20001, 0, false, false, false⟩⟩]⟩]⟩ true = none ∧
      connectCore
        ⟨1, 77, 0, false, maxBlockSigopsDefault, true, fun _ => true,
          fun _ => true, true⟩
        ⟨9, [⟨1, 10, [⟨⟨0, 4294967295⟩, ⟨0, 0, false, false, false⟩, 0⟩],
          [⟨50, ⟨20001, 0, false, false, false⟩⟩]⟩]⟩
        ⟨fun _ => none, 77⟩ = .error .badBlkSigops :=
  ⟨by decide, rfl, rfl⟩

/-- C2, witness: the amended characterization at a one-coinbase block with
3 legacy sigops — the `CheckBlock` equivalence, and the `ConnectBlock`
re-run at limit `M = 2` (which the total `3` exceeds). -/
theorem blockSigops_limits_witness :
    (checkBlockCore
        ⟨9, [⟨1, 10, [⟨⟨0, 4294967295⟩, ⟨0, 0, false, false, false⟩, 0⟩],
          [⟨50, ⟨3, 0, false, false, false⟩⟩]⟩]⟩ true =
        some .badBlkSigops ↔
      MAX_BLOCK_SIGOPS_COST <
        ((Block.mk 9 [⟨1, 10,
          [⟨⟨0, 4294967295⟩, ⟨0, 0, false, false, false⟩, 0⟩],
          [⟨50, ⟨3, 0, false, false, false⟩⟩]⟩]).vtx.map
            GetLegacySigOpCount).sum * WITNESS_SCALE_FACTOR) ∧
    connectCore
        ⟨1, 77, 0, false, 2, true, fun _ => true, fun _ => true, true⟩
        ⟨9, [⟨1, 10, [⟨⟨0, 4294967295⟩, ⟨0, 0, false, false, false⟩, 0⟩],
          [⟨50, ⟨3, 0, false, false, false⟩⟩]⟩]⟩
        ⟨fun _ => none, 77⟩ =
      (if connectSigOpsTotal
          ⟨1, 77, 0, false, 20000, true, fun _ => true, fun _ => true, true⟩
          (Block.mk 9 [⟨1, 10,
            [⟨⟨0, 4294967295⟩, ⟨0, 0, false, false, false⟩, 0⟩],
            [⟨50, ⟨3, 0, false, false, false⟩⟩]⟩]).vtx
          (CoinsView.mk (fun _ => none) 77).coins 0 ≤ 2 then
        .ok (⟨CoinsMap.setCoin (fun _ => none) ⟨10, 0⟩
          ⟨⟨50, ⟨3, 0, false, false, false⟩⟩, true, 1⟩, 9⟩, [])
       else .error .badBlkSigops) :=
  ⟨(blockSigops_limits
      ⟨9, [⟨1, 10, [⟨⟨0, 4294967295⟩, ⟨0, 0, false, false, false⟩, 0⟩],
        [⟨50, ⟨3, 0, false, false, false⟩⟩]⟩]⟩ true
      ⟨1, 10, [⟨⟨0, 4294967295⟩, ⟨0, 0, false, false, false⟩, 0⟩],
        [⟨50, ⟨3, 0, false, false, false⟩⟩]⟩ []
      ⟨1, 77, 0, false, 20000, true, fun _ => true, fun _ => true, true⟩
      ⟨fun _ => none, 77⟩ ⟨fun _ => none, 77⟩ []).2.1
      rfl rfl rfl rfl rfl,
    (blockSigops_limits
      ⟨9, [⟨1, 10, [⟨⟨0, 4294967295⟩, ⟨0, 0, false, false, false⟩, 0⟩],
        [⟨50, ⟨3, 0, false, false, false⟩⟩]⟩]⟩ true
      ⟨1, 10, [⟨⟨0, 4294967295⟩, ⟨0, 0, false, false, false⟩, 0⟩],
        [⟨50, ⟨3, 0, false, false, false⟩⟩]⟩ []
      ⟨1, 77, 0, false, 20000, true, fun _ => true, fun _ => true, true⟩
      ⟨fun _ => none, 77⟩
      ⟨CoinsMap.setCoin (fun _ => none) ⟨10, 0⟩
        ⟨⟨50, ⟨3, 0, false, false, false⟩⟩, true, 1⟩, 9⟩ []).2.2
      rfl (by decide) 2⟩

/-! ## C1: connect followed by disconnect restores the view -/

/-- Re-adding a just-removed coin restores the map. -/
theorem setCoin_delCoin_self (m : CoinsMap) (o : OutPoint) (c : Coin)
    (h : m o = some c) : (m.delCoin o).setCoin o c = m := by
  funext o'
  by_cases ho : o' = o
  · subst ho; simp [CoinsMap.setCoin, CoinsMap.delCoin, h]
  · simp [CoinsMap.setCoin, CoinsMap.delCoin, ho]

/-- Removing an absent coin is a no-op. -/
theorem delCoin_of_none (m : CoinsMap) (o : OutPoint) (h : m o = none) :
    m.delCoin o = m := by
  funext o'
  by_cases ho : o' = o
  · subst ho; simp [CoinsMap.delCoin, h]
  · simp [CoinsMap.delCoin, ho]

/-- Removal right after insertion at the same key removes the original. -/
theorem delCoin_setCoin_self (m : CoinsMap) (o : OutPoint) (c : Coin) :
    (m.setCoin o c).delCoin o = m.delCoin o := by
  funext o'
  by_cases ho : o' = o <;> simp [CoinsMap.setCoin, CoinsMap.delCoin, ho]

/-- Insertion and removal at distinct keys commute. -/
theorem setCoin_delCoin_comm (m : CoinsMap) (p o : OutPoint) (c : Coin)
    (h : p ≠ o) : (m.delCoin o).setCoin p c = (m.setCoin p c).delCoin o := by
  funext o'
  by_cases h1 : o' = p <;> by_cases h2 : o' = o <;>
    simp_all [CoinsMap.setCoin, CoinsMap.delCoin]

/-- Coins present after the input-spending loop were present before. -/
theorem spendInputsAux_subset (l : List TxIn) :
    ∀ (m m' : CoinsMap) (u : List Coin),
      spendInputsAux l m = some (m', u) →
      ∀ (o : OutPoint) (c : Coin), m' o = some c → m o = some c := by
  induction l with
  | nil =>
    intro m m' u h o c hc
    simp only [spendInputsAux, Option.some.injEq, Prod.mk.injEq] at h
    obtain ⟨rfl, rfl⟩ := h
    exact hc
  | cons txin rest ih =>
    intro m m' u h o c hc
    simp only [spendInputsAux, CoinsMap.spendCoin] at h
    cases hm : m txin.prevout with
    | none => simp [hm] at h
    | some c0 =>
      simp only [hm] at h
      cases hrest : spendInputsAux rest (m.delCoin txin.prevout) with
      | none => simp [hrest] at h
      | some r =>
        obtain ⟨m2, cs⟩ := r
        simp only [hrest, Option.some.injEq, Prod.mk.injEq] at h
        obtain ⟨rfl, rfl⟩ := h
        have := ih (m.delCoin txin.prevout) m2 cs hrest o c hc
        by_cases ho : o = txin.prevout
        · rw [ho] at this
          simp [CoinsMap.delCoin] at this
        · simpa [CoinsMap.delCoin, ho] using this

/-- The input-spending loop records one coin per input. -/
theorem spendInputsAux_length (l : List TxIn) :
    ∀ (m m' : CoinsMap) (u : List Coin),
      spendInputsAux l m = some (m', u) → u.length = l.length := by
  induction l with
  | nil =>
    intro m m' u h
    simp only [spendInputsAux, Option.some.injEq, Prod.mk.injEq] at h
    obtain ⟨rfl, rfl⟩ := h
    rfl
  | cons txin rest ih =>
    intro m m' u h
    simp only [spendInputsAux, CoinsMap.spendCoin] at h
    cases hm : m txin.prevout with
    | none => simp [hm] at h
    | some c0 =>
      simp only [hm] at h
      cases hrest : spendInputsAux rest (m.delCoin txin.prevout) with
      | none => simp [hrest] at h
      | some r =>
        obtain ⟨m2, cs⟩ := r
        simp only [hrest, Option.some.injEq, Prod.mk.injEq] at h
        obtain ⟨rfl, rfl⟩ := h
        simp [ih (m.delCoin txin.prevout) m2 cs hrest]

/-- Restoring the undo records of a successful input-spending run, in
reverse input order, reproduces the starting map exactly (and cleanly),
provided the map is well-formed. -/
theorem spend_then_restore (l : List TxIn) :
    ∀ (m m1 : CoinsMap) (u : List Coin),
      spendInputsAux l m = some (m1, u) →
      CoinsMap.wf m →
      restoreInputs (l.zip u) m1 = some (true, m) := by
  induction l with
  | nil =>
    intro m m1 u h hwf
    simp only [spendInputsAux, Option.some.injEq, Prod.mk.injEq] at h
    obtain ⟨rfl, rfl⟩ := h
    rfl
  | cons txin rest ih =>
    intro m m1 u h hwf
    simp only [spendInputsAux, CoinsMap.spendCoin] at h
    cases hm : m txin.prevout with
    | none => simp [hm] at h
    | some c =>
      simp only [hm] at h
      cases hrest : spendInputsAux rest (m.delCoin txin.prevout) with
      | none => simp [hrest] at h
      | some r =>
        obtain ⟨m2, cs⟩ := r
        simp only [hrest, Option.some.injEq, Prod.mk.injEq] at h
        obtain ⟨rfl, rfl⟩ := h
        have hwf' : CoinsMap.wf (m.delCoin txin.prevout) := by
          intro o c' hc'
          by_cases ho : o = txin.prevout
          · rw [ho] at hc'; simp [CoinsMap.delCoin] at hc'
          · exact hwf o c' (by simpa [CoinsMap.delCoin, ho] using hc')
        obtain ⟨hc1, hc2⟩ := hwf txin.prevout c hm
        have hdp : (m.delCoin txin.prevout) txin.prevout = none := by
          simp [CoinsMap.delCoin]
        have happ : ApplyTxInUndo c (m.delCoin txin.prevout) txin.prevout
            = some (true, m) := by
          simp only [ApplyTxInUndo, CoinsMap.haveCoin, hdp,
            Option.isSome_none, Bool.not_false]
          rw [if_neg hc1]
          simp only [CoinsMap.addCoin, hc2, hdp, Option.isSome_none,
            Bool.false_and, Bool.false_eq_true, if_false, ite_false]
          rw [setCoin_delCoin_self m txin.prevout c hm]
        show restoreInputs ((txin, c) :: rest.zip cs) m2 = some (true, m)
        simp only [restoreInputs,
          ih (m.delCoin txin.prevout) m2 cs hrest hwf']
        rw [happ]
        rfl

/-- Case analysis on a successful `AddCoin`. -/
theorem addCoin_elim (m : CoinsMap) (p : OutPoint) (c : Coin) (po : Bool)
    (m' : CoinsMap) (h : m.addCoin p c po = some m') :
    m' = m ∨
    (c.out.scriptPubKey.unspendable = false ∧ m' = m.setCoin p c) := by
  simp only [CoinsMap.addCoin] at h
  split at h
  · left
    simp only [Option.some.injEq] at h
    exact h.symm
  · rename_i hu
    split at h
    · cases h
    · right
      simp only [Option.some.injEq] at h
      exact ⟨by simpa using hu, h.symm⟩

/-- `AddCoin` commutes with removing a different outpoint. -/
theorem addCoin_delCoin (m : CoinsMap) (p o : OutPoint) (c : Coin)
    (po : Bool) (m' : CoinsMap) (h : m.addCoin p c po = some m')
    (hpo : p ≠ o) : (m.delCoin o).addCoin p c po = some (m'.delCoin o) := by
  have hval : (m.delCoin o) p = m p := by simp [CoinsMap.delCoin, hpo]
  simp only [CoinsMap.addCoin, hval] at h ⊢
  split at h
  · rename_i hu
    rw [if_pos hu]
    simp only [Option.some.injEq] at h ⊢
    rw [h]
  · rename_i hu
    rw [if_neg hu]
    split at h
    · cases h
    · rename_i hs
      rw [if_neg hs]
      simp only [Option.some.injEq] at h ⊢
      rw [setCoin_delCoin_comm m p o c hpo, h]

/-- The output-adding loop only touches outpoints of its own txid at
indices from `k` up. -/
theorem addOutputsAux_lower (txid : Nat) (fcb : Bool) (hgt : Nat)
    (outs : List TxOut) :
    ∀ (k : Nat) (m0 madd : CoinsMap),
      addOutputsAux txid fcb hgt outs k m0 = some madd →
      ∀ o : OutPoint, (o.txid ≠ txid ∨ o.n < k) → madd o = m0 o := by
  induction outs with
  | nil =>
    intro k m0 madd hadd o _
    simp only [addOutputsAux, Option.some.injEq] at hadd
    rw [hadd]
  | cons out rest ih =>
    intro k m0 madd hadd o ho
    simp only [addOutputsAux] at hadd
    cases hac : m0.addCoin ⟨txid, k⟩ ⟨out, fcb, hgt⟩ fcb with
    | none => simp [hac] at hadd
    | some m1 =>
      simp only [hac] at hadd
      have hne : o ≠ ⟨txid, k⟩ := by
        intro he
        rcases ho with h1 | h2
        · exact h1 (by rw [he])
        · rw [he] at h2
          exact Nat.lt_irrefl k h2
      have hstep : m1 o = m0 o := by
        rcases addCoin_elim _ _ _ _ _ hac with rfl | ⟨_, rfl⟩
        · rfl
        · simp [CoinsMap.setCoin, hne]
      rw [ih (k + 1) m1 madd hadd o
        (by rcases ho with h1 | h2
            · exact Or.inl h1
            · exact Or.inr (Nat.lt_succ_of_lt h2)), hstep]

/-- The output-adding loop commutes with removing an outpoint it does not
touch. -/
theorem addOutputsAux_delCoin (txid : Nat) (fcb : Bool) (hgt : Nat)
    (outs : List TxOut) :
    ∀ (k : Nat) (m0 madd : CoinsMap) (o : OutPoint),
      addOutputsAux txid fcb hgt outs k m0 = some madd →
      (o.txid ≠ txid ∨ o.n < k) →
      addOutputsAux txid fcb hgt outs k (m0.delCoin o) =
        some (madd.delCoin o) := by
  induction outs with
  | nil =>
    intro k m0 madd o hadd _
    simp only [addOutputsAux, Option.some.injEq] at hadd ⊢
    rw [hadd]
  | cons out rest ih =>
    intro k m0 madd o hadd ho
    have hne : (⟨txid, k⟩ : OutPoint) ≠ o := by
      intro he
      rcases ho with h1 | h2
      · exact h1 (by rw [← he])
      · rw [← he] at h2
        exact Nat.lt_irrefl k h2
    simp only [addOutputsAux] at hadd ⊢
    cases hac : m0.addCoin ⟨txid, k⟩ ⟨out, fcb, hgt⟩ fcb with
    | none => simp [hac] at hadd
    | some m1 =>
      simp only [hac] at hadd
      simp only [addCoin_delCoin m0 ⟨txid, k⟩ o ⟨out, fcb, hgt⟩ fcb m1 hac
        hne]
      exact ih (k + 1) m1 madd o hadd
        (by rcases ho with h1 | h2
            · exact Or.inl h1
            · exact Or.inr (Nat.lt_succ_of_lt h2))

/-- Every coin present after the output-adding loop was either already
there or carries the loop's height and a spendable script. -/
theorem addOutputsAux_values (txid : Nat) (fcb : Bool) (hgt : Nat)
    (outs : List TxOut) :
    ∀ (k : Nat) (m0 madd : CoinsMap),
      addOutputsAux txid fcb hgt outs k m0 = some madd →
      ∀ (o : OutPoint) (c : Coin), madd o = some c →
        m0 o = some c ∨
        (c.nHeight = hgt ∧ c.out.scriptPubKey.unspendable = false) := by
  induction outs with
  | nil =>
    intro k m0 madd hadd o c hc
    simp only [addOutputsAux, Option.some.injEq] at hadd
    rw [hadd]
    exact Or.inl hc
  | cons out rest ih =>
    intro k m0 madd hadd o c hc
    simp only [addOutputsAux] at hadd
    cases hac : m0.addCoin ⟨txid, k⟩ ⟨out, fcb, hgt⟩ fcb with
    | none => simp [hac] at hadd
    | some m1 =>
      simp only [hac] at hadd
      rcases ih (k + 1) m1 madd hadd o c hc with h1 | h2
      · rcases addCoin_elim _ _ _ _ _ hac with rfl | ⟨hsp, rfl⟩
        · exact Or.inl h1
        · by_cases ho : o = ⟨txid, k⟩
          · subst ho
            have hkey : (m0.setCoin ⟨txid, k⟩ ⟨out, fcb, hgt⟩) ⟨txid, k⟩
                = some ⟨out, fcb, hgt⟩ := by simp [CoinsMap.setCoin]
            rw [hkey] at h1
            simp only [Option.some.injEq] at h1
            refine Or.inr ?_
            rw [← h1]
            exact ⟨rfl, hsp⟩
          · exact Or.inl (by simpa [CoinsMap.setCoin, ho] using h1)
      · exact Or.inr h2

/-- Spending the outputs a successful `AddCoins` run just created removes
them all, cleanly, restoring the pre-add map — provided the touched
outpoints were fresh. -/
theorem add_then_disconnect_outputs (tx : Transaction) (hgt : Nat)
    (outs : List TxOut) :
    ∀ (k : Nat) (m0 madd : CoinsMap),
      addOutputsAux tx.txid tx.isCoinBase hgt outs k m0 = some madd →
      (∀ j, k ≤ j → j < k + outs.length → m0 ⟨tx.txid, j⟩ = none) →
      disconnectOutputs tx hgt outs k madd = (true, m0) := by
  induction outs with
  | nil =>
    intro k m0 madd hadd _
    simp only [addOutputsAux, Option.some.injEq] at hadd
    rw [disconnectOutputs, hadd]
  | cons out rest ih =>
    intro k m0 madd hadd hf
    simp only [addOutputsAux] at hadd
    cases hac : m0.addCoin ⟨tx.txid, k⟩ ⟨out, tx.isCoinBase, hgt⟩
        tx.isCoinBase with
    | none => simp [hac] at hadd
    | some m1 =>
      simp only [hac] at hadd
      by_cases hu : out.scriptPubKey.unspendable
      · have hm1 : m1 = m0 := by
          simp only [CoinsMap.addCoin, if_pos hu, Option.some.injEq] at hac
          exact hac.symm
        subst hm1
        simp only [disconnectOutputs, if_pos hu]
        exact ih (k + 1) m1 madd hadd
          (fun j hj1 hj2 => hf j (Nat.le_of_succ_le hj1)
            (by simp only [List.length_cons]; omega))
      · have hfk : m0 ⟨tx.txid, k⟩ = none :=
          hf k (Nat.le_refl k) (by simp only [List.length_cons]; omega)
        have hm1 : m1 = m0.setCoin ⟨tx.txid, k⟩ ⟨out, tx.isCoinBase, hgt⟩ := by
          simp only [CoinsMap.addCoin, hu, hfk] at hac
          simp only [Option.isSome_none, Bool.false_and, Bool.false_eq_true,
            if_false, ite_false, Option.some.injEq] at hac
          exact hac.symm
        have hmk : madd ⟨tx.txid, k⟩
            = some ⟨out, tx.isCoinBase, hgt⟩ := by
          rw [addOutputsAux_lower tx.txid tx.isCoinBase hgt rest (k + 1) m1
            madd hadd ⟨tx.txid, k⟩ (Or.inr (Nat.lt_succ_self k)), hm1]
          simp [CoinsMap.setCoin]
        have hdel : addOutputsAux tx.txid tx.isCoinBase hgt rest (k + 1)
            (m1.delCoin ⟨tx.txid, k⟩) = some (madd.delCoin ⟨tx.txid, k⟩) :=
          addOutputsAux_delCoin tx.txid tx.isCoinBase hgt rest (k + 1) m1
            madd ⟨tx.txid, k⟩ hadd (Or.inr (Nat.lt_succ_self k))
        rw [hm1, delCoin_setCoin_self, delCoin_of_none m0 _ hfk] at hdel
        have hrec : disconnectOutputs tx hgt rest (k + 1)
            (madd.delCoin ⟨tx.txid, k⟩) = (true, m0) :=
          ih (k + 1) m0 (madd.delCoin ⟨tx.txid, k⟩) hdel
            (fun j hj1 hj2 => hf j (Nat.le_of_succ_le hj1)
              (by simp only [List.length_cons]; omega))
        simp only [disconnectOutputs, if_neg hu, CoinsMap.spendCoin, hmk,
          hrec]
        simp

/-- `UpdateCoins` at a nonzero height preserves well-formedness of the
view. -/
theorem updateCoins_wf (tx : Transaction) (hgt : Nat) (m m2 : CoinsMap)
    (u : List Coin) (hUC : UpdateCoins tx hgt m = some (m2, u))
    (hwf : CoinsMap.wf m) (hh : hgt ≠ 0) : CoinsMap.wf m2 := by
  intro o c hc
  simp only [UpdateCoins] at hUC
  split at hUC
  · cases hsp : spendInputsAux tx.vin m with
    | none => simp [hsp] at hUC
    | some r =>
      obtain ⟨m1, undo⟩ := r
      simp only [hsp] at hUC
      cases hadd : AddCoins tx hgt m1 with
      | none => simp [hadd] at hUC
      | some mf =>
        simp only [hadd, Option.some.injEq, Prod.mk.injEq] at hUC
        obtain ⟨rfl, rfl⟩ := hUC
        simp only [AddCoins] at hadd
        rcases addOutputsAux_values _ _ _ _ _ _ _ hadd o c hc with h1 | h2
        · exact hwf o c (spendInputsAux_subset tx.vin m m1 undo hsp o c h1)
        · exact ⟨by rw [h2.1]; exact hh, h2.2⟩
  · cases hadd : AddCoins tx hgt m with
    | none => simp [hadd] at hUC
    | some mf =>
      simp only [hadd, Option.some.injEq, Prod.mk.injEq] at hUC
      obtain ⟨rfl, rfl⟩ := hUC
      simp only [AddCoins] at hadd
      rcases addOutputsAux_values _ _ _ _ _ _ _ hadd o c hc with h1 | h2
      · exact hwf o c h1
      · exact ⟨by rw [h2.1]; exact hh, h2.2⟩

/-- `UpdateCoins` creates no coin at an outpoint of another transaction. -/
theorem updateCoins_foreign (tx : Transaction) (hgt : Nat) (m m2 : CoinsMap)
    (u : List Coin) (hUC : UpdateCoins tx hgt m = some (m2, u))
    (o : OutPoint) (ho : o.txid ≠ tx.txid) (hm : m o = none) :
    m2 o = none := by
  simp only [UpdateCoins] at hUC
  split at hUC
  · cases hsp : spendInputsAux tx.vin m with
    | none => simp [hsp] at hUC
    | some r =>
      obtain ⟨m1, undo⟩ := r
      simp only [hsp] at hUC
      cases hadd : AddCoins tx hgt m1 with
      | none => simp [hadd] at hUC
      | some mf =>
        simp only [hadd, Option.some.injEq, Prod.mk.injEq] at hUC
        obtain ⟨rfl, rfl⟩ := hUC
        simp only [AddCoins] at hadd
        have hm1 : m1 o = none := by
          cases hq : m1 o with
          | none => rfl
          | some c =>
            have := spendInputsAux_subset tx.vin m m1 undo hsp o c hq
            rw [hm] at this
            cases this
        rw [addOutputsAux_lower _ _ _ _ _ _ _ hadd o (Or.inl ho), hm1]
  · cases hadd : AddCoins tx hgt m with
    | none => simp [hadd] at hUC
    | some mf =>
      simp only [hadd, Option.some.injEq, Prod.mk.injEq] at hUC
      obtain ⟨rfl, rfl⟩ := hUC
      simp only [AddCoins] at hadd
      rw [addOutputsAux_lower _ _ _ _ _ _ _ hadd o (Or.inl ho), hm]

/-- One ordinary (non-coinbase, non-zerocoin) transaction connected at
position `i > 0` disconnects cleanly back to the starting view, given a
well-formed view and fresh output outpoints. -/
theorem connectTx_disconnectTx (env : ConnectEnv) (i : Nat)
    (tx : Transaction) (m m2 : CoinsMap) (u : List Coin) (s s2 : Nat)
    (hi : 0 < i)
    (hconn : connectTx env m s i tx = .ok (m2, u, s2))
    (hcb : tx.isCoinBase = false) (hzc : tx.isZerocoinSpend = false)
    (hfresh : ∀ j, j < tx.vout.length → m ⟨tx.txid, j⟩ = none)
    (hwf : CoinsMap.wf m) :
    disconnectTx env.nHeight i tx u m2 = some (true, m) := by
  obtain ⟨hUC, -⟩ := connectTx_elim env m s i tx m2 u s2 hconn
  simp only [UpdateCoins] at hUC
  rw [if_pos ⟨by simp [hcb], by simp [hzc]⟩] at hUC
  cases hsp : spendInputsAux tx.vin m with
  | none => simp [hsp] at hUC
  | some r =>
    obtain ⟨m1, undo⟩ := r
    simp only [hsp] at hUC
    cases hadd : AddCoins tx env.nHeight m1 with
    | none => simp [hadd] at hUC
    | some mf =>
      simp only [hadd, Option.some.injEq, Prod.mk.injEq] at hUC
      obtain ⟨rfl, rfl⟩ := hUC
      have hf1 : ∀ j, j < tx.vout.length → m1 ⟨tx.txid, j⟩ = none := by
        intro j hj
        cases hq : m1 ⟨tx.txid, j⟩ with
        | none => rfl
        | some c =>
          have := spendInputsAux_subset tx.vin m m1 undo hsp _ c hq
          rw [hfresh j hj] at this
          cases this
      simp only [AddCoins] at hadd
      have hdo : disconnectOutputs tx env.nHeight tx.vout 0 mf
          = (true, m1) :=
        add_then_disconnect_outputs tx env.nHeight tx.vout 0 m1 mf hadd
          (fun j _ hj2 => hf1 j (by omega))
      have hlen : undo.length = tx.vin.length :=
        spendInputsAux_length tx.vin m m1 undo hsp
      have hri : restoreInputs (tx.vin.zip undo) m1 = some (true, m) :=
        spend_then_restore tx.vin m m1 undo hsp hwf
      simp only [disconnectTx, hdo]
      rw [if_pos hi, if_neg (not_not_intro hlen), hri]
      rfl

/-- The coinbase connected at position `0` disconnects cleanly (with the
empty undo record) back to the starting view. -/
theorem connectTx_disconnectTx_cb (env : ConnectEnv) (tx : Transaction)
    (m m2 : CoinsMap) (u : List Coin) (s s2 : Nat)
    (hconn : connectTx env m s 0 tx = .ok (m2, u, s2))
    (hcb : tx.isCoinBase = true)
    (hfresh : ∀ j, j < tx.vout.length → m ⟨tx.txid, j⟩ = none) :
    disconnectTx env.nHeight 0 tx [] m2 = some (true, m) := by
  obtain ⟨hUC, -⟩ := connectTx_elim env m s 0 tx m2 u s2 hconn
  simp only [UpdateCoins] at hUC
  rw [if_neg (by simp [hcb])] at hUC
  cases hadd : AddCoins tx env.nHeight m with
  | none => simp [hadd] at hUC
  | some mf =>
    simp only [hadd, Option.some.injEq, Prod.mk.injEq] at hUC
    obtain ⟨rfl, rfl⟩ := hUC
    simp only [AddCoins] at hadd
    have hdo : disconnectOutputs tx env.nHeight tx.vout 0 mf
        = (true, m) :=
      add_then_disconnect_outputs tx env.nHeight tx.vout 0 m mf hadd
        (fun j _ hj2 => hfresh j (by omega))
    simp only [disconnectTx, hdo]
    rfl

/-- The connect loop over ordinary transactions, run at positions from
`i > 0`, disconnects cleanly back to the starting view. -/
theorem connectTxs_disconnectTxs (env : ConnectEnv) (l : List Transaction) :
    ∀ (i : Nat) (m : CoinsMap) (s : Nat) (m' : CoinsMap)
      (us : List (List Coin)) (s' : Nat),
      0 < i →
      connectTxs env l i m s = .ok (m', us, s') →
      (∀ tx ∈ l, tx.isCoinBase = false ∧ tx.isZerocoinSpend = false) →
      (l.map (fun t => t.txid)).Nodup →
      (∀ tx ∈ l, ∀ j, j < tx.vout.length → m ⟨tx.txid, j⟩ = none) →
      CoinsMap.wf m → env.nHeight ≠ 0 →
      disconnectTxs env.nHeight (l.zip us) i m' = some (true, m) := by
  induction l with
  | nil =>
    intro i m s m' us s' _ h _ _ _ _ _
    simp only [connectTxs, Except.ok.injEq, Prod.mk.injEq] at h
    obtain ⟨rfl, rfl, rfl⟩ := h
    rfl
  | cons tx rest ih =>
    intro i m s m' us s' hi h hprops hnd hfresh hwf hh
    simp only [List.map_cons, List.nodup_cons] at hnd
    simp only [connectTxs] at h
    split at h
    · cases h
    · rename_i m1 u1 s1 hct
      split at h
      · cases h
      · rename_i m2 us2 s2 hcts
        simp only [Except.ok.injEq, Prod.mk.injEq] at h
        obtain ⟨rfl, rfl, rfl⟩ := h
        obtain ⟨hUC, -⟩ := connectTx_elim env m s i tx m1 u1 s1 hct
        have hwf1 : CoinsMap.wf m1 :=
          updateCoins_wf tx env.nHeight m m1 u1 hUC hwf hh
        have hne : ∀ t ∈ rest, t.txid ≠ tx.txid := by
          intro t ht he
          exact hnd.1 (he ▸ List.mem_map_of_mem _ ht)
        have hfresh1 : ∀ t ∈ rest, ∀ j, j < t.vout.length →
            m1 ⟨t.txid, j⟩ = none := by
          intro t ht j hj
          exact updateCoins_foreign tx env.nHeight m m1 u1 hUC ⟨t.txid, j⟩
            (hne t ht) (hfresh t (List.mem_cons_of_mem _ ht) j hj)
        have hrest := ih (i + 1) m1 s1 m2 us2 s2 (Nat.succ_pos i) hcts
          (fun t ht => hprops t (List.mem_cons_of_mem _ ht)) hnd.2
          hfresh1 hwf1 hh
        have htx := connectTx_disconnectTx env i tx m m1 u1 s s1 hi hct
          (hprops tx (List.mem_cons_self _ _)).1
          (hprops tx (List.mem_cons_self _ _)).2
          (hfresh tx (List.mem_cons_self _ _)) hwf
        show disconnectTxs env.nHeight ((tx, u1) :: rest.zip us2) i m2
          = some (true, m)
        simp only [disconnectTxs, hrest, htx]
        rfl

/-- A passing `CheckBlock` pins the coinbase structure: the first
transaction is the coinbase and no later one is. -/
theorem checkBlockCore_none_structure (b : Block) (ok : Bool)
    (cb : Transaction) (rest : List Transaction)
    (h : checkBlockCore b ok = none) (hvtx : b.vtx = cb :: rest) :
    cb.isCoinBase = true ∧ ∀ t ∈ rest, t.isCoinBase = false := by
  simp only [checkBlockCore, hvtx] at h
  split at h
  · cases h
  · split at h
    · cases h
    · split at h
      · cases h
      · rename_i h1 h2
        refine ⟨not_not.mp h1, ?_⟩
        rw [Bool.not_eq_true] at h2
        intro t ht
        exact Bool.not_eq_true _ |>.mp (List.any_eq_false.mp h2 t ht)

/-- A clean BIP30 scan means every output outpoint of the block is fresh
in the view. -/
theorem bip30_fresh (b : Block) (m : CoinsMap)
    (h : bip30Violation b m = false) :
    ∀ tx ∈ b.vtx, ∀ j, j < tx.vout.length → m ⟨tx.txid, j⟩ = none := by
  intro tx htx j hj
  simp only [bip30Violation, List.any_eq_false] at h
  have h1 := h tx htx
  rw [Bool.not_eq_true, List.any_eq_false] at h1
  have h2 := h1 j (List.mem_range.mpr hj)
  simp only [CoinsMap.haveCoin] at h2
  exact Option.not_isSome_iff_eq_none.mp h2

/-- An empty (0-sigop, spendable, non-P2SH, non-zerocoin) script. -/
def cScriptC1 : Script := ⟨0, 0, false, false, false⟩

/-- A zerocoin-spend signature script. -/
def cZcScriptC1 : Script := ⟨0, 0, false, false, true⟩

/-- A coinbase transaction (txid 10). -/
def cCbC1 : Transaction :=
  ⟨1, 10, [⟨⟨0, 4294967295⟩, cScriptC1, 0⟩], [⟨50, cScriptC1⟩]⟩

/-- A zerocoin-spend transaction (txid 11): one non-null input carrying a
zerocoin-spend script, one output. -/
def cZcTxC1 : Transaction :=
  ⟨1, 11, [⟨⟨2, 0⟩, cZcScriptC1, 0⟩], [⟨5, cScriptC1⟩]⟩

/-- A block holding the coinbase and the zerocoin spend. -/
def cBlockC1 : Block := ⟨88, [cCbC1, cZcTxC1]⟩

/-- A connect environment at height 2 over parent 77 with every opaque
check passing. -/
def cEnvC1 : ConnectEnv :=
  ⟨2, 77, 0, false, 20000, true, fun _ => true, fun _ => true, true⟩

/-- The empty UTXO view at best block 77. -/
def cViewC1 : CoinsView := ⟨fun _ => none, 77⟩

/-- The view after connecting `cBlockC1`: both transactions' outputs
added. -/
def cViewC1' : CoinsView :=
  ⟨(cViewC1.coins.setCoin ⟨10, 0⟩ ⟨⟨50, cScriptC1⟩, true, 2⟩).setCoin
    ⟨11, 0⟩ ⟨⟨5, cScriptC1⟩, false, 2⟩, 88⟩

/-- A block containing a zerocoin spend connects successfully — the
zerocoin transaction's inputs are not spent and its undo record stays
empty — yet disconnecting the very same block from the resulting view
returns `DISCONNECT_FAILED` (the undo record has fewer entries than the
transaction has inputs, validation.cpp:2377-2380), not the clean
restoration of the pre-connect state. -/
theorem connect_disconnect_zerocoin_counterexample :
    connectCore cEnvC1 cBlockC1 cViewC1 = .ok (cViewC1', [[]]) ∧
    disconnectCore cBlockC1 cEnvC1.nHeight cEnvC1.parentHash [[]] cViewC1'
      = none :=
  ⟨rfl, rfl⟩

/-- C1: a successfully connected block disconnects cleanly back to the
exact pre-connect view — coins and best-block pointer — provided (beyond
the claim's own wording) that the block is not the genesis block, BIP30 is
enforced for it, no transaction is a zerocoin spend, the transaction ids
are distinct, the view is well-formed (no coin at height 0, no unspendable
coin) and the connect height is nonzero.  Without the zerocoin proviso the
claim fails (see the counterexample). -/
theorem connectBlock_disconnectBlock_roundtrip (env : ConnectEnv) (b : Block)
    (v v' : CoinsView) (undos : List (List Coin))
    (hconn : connectCore env b v = .ok (v', undos))
    (hgen : b.hash ≠ env.genesisHash)
    (hbip : fEnforceBIP30 env.nHeight b.hash = true)
    (hzc : ∀ tx ∈ b.vtx, tx.isZerocoinSpend = false)
    (hids : (b.vtx.map (fun t => t.txid)).Nodup)
    (hwf : CoinsMap.wf v.coins)
    (hh : env.nHeight ≠ 0) :
    disconnectCore b env.nHeight env.parentHash undos v'
      = some (true, v) := by
  obtain ⟨hcb, hp, hbip0, hmin, cb, rest, m1, u1, s1, s2, hvtx, hct, hcts,
    hbest⟩ := connectCore_ok_elim env b v v' undos hconn hgen
  rw [hbip, Bool.true_and] at hbip0
  have hfresh := bip30_fresh b v.coins hbip0
  obtain ⟨hcbase, hrestcb⟩ :=
    checkBlockCore_none_structure b env.otherChecksOk cb rest hcb hvtx
  have hlen : undos.length = rest.length :=
    (connectTxs_total env rest 1 m1 s1 v'.coins undos s2 hcts).2
  obtain ⟨hUCcb, -⟩ := connectTx_elim env v.coins 0 0 cb m1 u1 s1 hct
  rw [hvtx] at hids hzc hfresh
  simp only [List.map_cons, List.nodup_cons] at hids
  have hne : ∀ t ∈ rest, t.txid ≠ cb.txid := by
    intro t ht he
    exact hids.1 (he ▸ List.mem_map_of_mem _ ht)
  have hfresh1 : ∀ t ∈ rest, ∀ j, j < t.vout.length →
      m1 ⟨t.txid, j⟩ = none := by
    intro t ht j hj
    exact updateCoins_foreign cb env.nHeight v.coins m1 u1 hUCcb ⟨t.txid, j⟩
      (hne t ht) (hfresh t (List.mem_cons_of_mem _ ht) j hj)
  have hwf1 : CoinsMap.wf m1 :=
    updateCoins_wf cb env.nHeight v.coins m1 u1 hUCcb hwf hh
  have hloop : disconnectTxs env.nHeight (rest.zip undos) 1 v'.coins
      = some (true, m1) :=
    connectTxs_disconnectTxs env rest 1 m1 s1 v'.coins undos s2
      (Nat.one_pos) hcts
      (fun t ht => ⟨hrestcb t ht, hzc t (List.mem_cons_of_mem _ ht)⟩)
      hids.2 hfresh1 hwf1 hh
  have hcbd : disconnectTx env.nHeight 0 cb [] m1 = some (true, v.coins) :=
    connectTx_disconnectTx_cb env cb v.coins m1 u1 0 s1 hct hcbase
      (hfresh cb (List.mem_cons_self _ _))
  simp only [disconnectCore]
  rw [if_neg (not_not_intro hbest.symm), hvtx]
  rw [if_neg (not_not_intro (by simp [hlen]))]
  dsimp only
  rw [hloop]
  dsimp only
  rw [hcbd]
  dsimp only
  rw [hp]
  rfl

/-- A one-coin well-formed view at best block 77. -/
def wCoinsC1 : CoinsMap :=
  fun o => if o = ⟨5, 0⟩ then some ⟨⟨9, cScriptC1⟩, false, 1⟩ else none

/-- The view over `wCoinsC1`. -/
def wViewC1 : CoinsView := ⟨wCoinsC1, 77⟩

/-- An ordinary transaction (txid 11) spending the coin at `⟨5, 0⟩`. -/
def wTxC1 : Transaction :=
  ⟨1, 11, [⟨⟨5, 0⟩, cScriptC1, 0⟩], [⟨5, cScriptC1⟩]⟩

/-- A block holding the coinbase and the ordinary spend. -/
def wBlockC1 : Block := ⟨88, [cCbC1, wTxC1]⟩

/-- The view after connecting `wBlockC1`. -/
def wViewC1' : CoinsView :=
  ⟨((wCoinsC1.setCoin ⟨10, 0⟩ ⟨⟨50, cScriptC1⟩, true, 2⟩).delCoin
      ⟨5, 0⟩).setCoin ⟨11, 0⟩ ⟨⟨5, cScriptC1⟩, false, 2⟩, 88⟩

/-- `wCoinsC1` is well-formed. -/
theorem wCoinsC1_wf : CoinsMap.wf wCoinsC1 := by
  intro o c hc
  simp only [wCoinsC1] at hc
  split at hc
  · cases hc
    exact ⟨one_ne_zero, rfl⟩
  · cases hc

/-- A concrete run of the round trip: connecting `wBlockC1` succeeds and
disconnecting it restores `wViewC1` exactly. -/
theorem connect_disconnect_roundtrip_witness :
    disconnectCore wBlockC1 2 77
      [[⟨⟨9, cScriptC1⟩, false, 1⟩]] wViewC1' = some (true, wViewC1) :=
  connectBlock_disconnectBlock_roundtrip
    ⟨2, 77, 0, false, 20000, true, fun _ => true, fun _ => true, true⟩
    wBlockC1 wViewC1 wViewC1' [[⟨⟨9, cScriptC1⟩, false, 1⟩]]
    rfl (by decide) rfl (by decide) (by decide) wCoinsC1_wf (by decide)

end SmartCash
